import Mathlib

/-!
Verification development for the PathBool.js planar path-boolean library.

The TypeScript sources are embedded shallowly over exact rationals (ℚ):
every JavaScript `number` becomes a `ℚ`, so all comparisons and the
linear / de Casteljau arithmetic of the source are reproduced exactly.
Kernel routines of the source whose values are irrational (square roots
and trigonometry inside the cubic self-intersection solver, the curve
bounding-box extrema, and the curve-curve bisection) are taken as
explicit function parameters of the stages that consume them; every
theorem below that involves such a stage is universally quantified over
those parameters, so it holds in particular for the real kernels.
-/

namespace PathBool

/-- `Vector` from `primitives/Vector.ts`: a pair (x, y). -/
abbrev Vector : Type := ℚ × ℚ

/-- `Math.abs`, written so that it evaluates by kernel reduction. -/
def rabs (x : ℚ) : ℚ := if x < 0 then -x else x

theorem rabs_eq_abs (x : ℚ) : rabs x = |x| := by
  unfold rabs
  rcases lt_or_ge x 0 with h | h
  · simp [h, abs_of_neg h]
  · simp [not_lt.mpr h, abs_of_nonneg h]

/-- `vectorsEqual(a, b, eps)` from `primitives/Vector.ts`:
componentwise strict comparison `|a - b| < eps`. -/
def vectorsEqual (a b : Vector) (eps : ℚ) : Bool :=
  rabs (a.1 - b.1) < eps && rabs (a.2 - b.2) < eps

/-- `AABB` from `primitives/AABB.ts`. Y grows downward: `top` is min-y. -/
structure AABB where
  top : ℚ
  right : ℚ
  bottom : ℚ
  left : ℚ
deriving Repr, DecidableEq

/-- `boundingBoxesOverlap` from `primitives/AABB.ts`. -/
def boundingBoxesOverlap (a b : AABB) : Bool :=
  a.left ≤ b.right && b.left ≤ a.right && a.top ≤ b.bottom && b.top ≤ a.bottom

/-- `mergeBoundingBoxes(a, b)` from `primitives/AABB.ts`; `a` may be null. -/
def mergeBoundingBoxes (a : Option AABB) (b : AABB) : AABB :=
  match a with
  | none => b
  | some a =>
    ⟨min a.top b.top, max a.right b.right, max a.bottom b.bottom, min a.left b.left⟩

/-- `boundingBoxMaxExtent` from `primitives/AABB.ts`. -/
def boundingBoxMaxExtent (boundingBox : AABB) : ℚ :=
  max (boundingBox.right - boundingBox.left) (boundingBox.bottom - boundingBox.top)

/-- `boundingBoxAroundPoint(point, padding)` from `primitives/AABB.ts`. -/
def boundingBoxAroundPoint (point : Vector) (padding : ℚ) : AABB :=
  ⟨point.2 - padding, point.1 + padding, point.2 + padding, point.1 - padding⟩

/-- The central epsilon configuration from `Epsilons.ts` / `path-boolean.ts`:
`EPS = { point: 1e-6, linear: 1e-4, param: 1e-8 }`. -/
structure Epsilons where
  point : ℚ
  linear : ℚ
  param : ℚ

/-- The process-wide `EPS` constant of `path-boolean.ts`. -/
def EPS : Epsilons := ⟨1 / 1000000, 1 / 10000, 1 / 100000000⟩

/-- `PathSegment` from `primitives/PathSegment.ts`: line, cubic Bézier,
quadratic Bézier, or SVG elliptical arc
`(p0, rx, ry, phi_deg, large-arc-flag, sweep-flag, p1)`. -/
inductive PathSegment where
  | line (p0 p1 : Vector)
  | cubic (p0 c1 c2 p1 : Vector)
  | quadratic (p0 c p1 : Vector)
  | arc (p0 : Vector) (rx ry phi : ℚ) (largeArc sweep : Bool) (p1 : Vector)
deriving Repr, DecidableEq

/-- `Path` from `primitives/Path.ts`: a list of segments. -/
abbrev Path : Type := List PathSegment

/-- `getStartPoint` from `primitives/PathSegment.ts`: `seg[1]`. -/
def getStartPoint : PathSegment → Vector
  | .line p0 _ => p0
  | .cubic p0 _ _ _ => p0
  | .quadratic p0 _ _ => p0
  | .arc p0 _ _ _ _ _ _ => p0

/-- `getEndPoint` from `primitives/PathSegment.ts`. -/
def getEndPoint : PathSegment → Vector
  | .line _ p1 => p1
  | .cubic _ _ _ p1 => p1
  | .quadratic _ _ p1 => p1
  | .arc _ _ _ _ _ _ p1 => p1

/-- `reversePathSegment` from `primitives/PathSegment.ts`: reverses the
point sequence; for arcs it also negates the sweep flag. -/
def reversePathSegment : PathSegment → PathSegment
  | .line p0 p1 => .line p1 p0
  | .cubic p0 c1 c2 p1 => .cubic p1 c2 c1 p0
  | .quadratic p0 c p1 => .quadratic p1 c p0
  | .arc p0 rx ry phi largeArc sweep p1 => .arc p1 rx ry phi largeArc (!sweep) p0

/-- `AbsolutePathCommand` from `primitives/PathCommand.ts`. The source's
`["z"]` duplicate of `["Z"]` is not represented because `toAbsoluteCommands`
normalizes every close command to `["Z"]`. -/
inductive AbsolutePathCommand where
  | M (p : Vector)
  | L (p : Vector)
  | C (c1 c2 p : Vector)
  | S (c2 p : Vector)
  | Q (c p : Vector)
  | T (p : Vector)
  | A (rx ry phi : ℚ) (largeArc sweep : Bool) (p : Vector)
  | Z
deriving Repr, DecidableEq

/-- `PathCommand` from `primitives/PathCommand.ts`: the absolute commands
together with the relative / shorthand forms. -/
inductive PathCommand where
  | M (p : Vector)
  | L (p : Vector)
  | C (c1 c2 p : Vector)
  | S (c2 p : Vector)
  | Q (c p : Vector)
  | T (p : Vector)
  | A (rx ry phi : ℚ) (largeArc sweep : Bool) (p : Vector)
  | Z
  | z
  | H (x : ℚ)
  | V (y : ℚ)
  | m (dx dy : ℚ)
  | l (dx dy : ℚ)
  | h (dx : ℚ)
  | v (dy : ℚ)
  | c (x1 y1 x2 y2 x y : ℚ)
  | s (x2 y2 x y : ℚ)
  | q (x1 y1 x y : ℚ)
  | t (x y : ℚ)
  | a (rx ry phi : ℚ) (largeArc sweep : Bool) (dx dy : ℚ)
deriving Repr, DecidableEq

/-- The loop body of `toAbsoluteCommands` from `primitives/PathCommand.ts`,
with the generator state (`lastPoint`, `firstPoint`) made explicit. -/
def toAbsoluteCommandsAux : Vector → Vector → List PathCommand → List AbsolutePathCommand
  | _, _, [] => []
  | _, _, .M p :: rest => .M p :: toAbsoluteCommandsAux p p rest
  | _, firstPoint, .L p :: rest => .L p :: toAbsoluteCommandsAux p firstPoint rest
  | _, firstPoint, .C c1 c2 p :: rest => .C c1 c2 p :: toAbsoluteCommandsAux p firstPoint rest
  | _, firstPoint, .S c2 p :: rest => .S c2 p :: toAbsoluteCommandsAux p firstPoint rest
  | _, firstPoint, .Q cp p :: rest => .Q cp p :: toAbsoluteCommandsAux p firstPoint rest
  | _, firstPoint, .T p :: rest => .T p :: toAbsoluteCommandsAux p firstPoint rest
  | _, firstPoint, .A rx ry phi la sw p :: rest =>
      .A rx ry phi la sw p :: toAbsoluteCommandsAux p firstPoint rest
  | _, firstPoint, .Z :: rest => .Z :: toAbsoluteCommandsAux firstPoint firstPoint rest
  | _, firstPoint, .z :: rest => .Z :: toAbsoluteCommandsAux firstPoint firstPoint rest
  | lastPoint, firstPoint, .H x :: rest =>
      .L (x, lastPoint.2) :: toAbsoluteCommandsAux (x, lastPoint.2) firstPoint rest
  | lastPoint, firstPoint, .V y :: rest =>
      .L (lastPoint.1, y) :: toAbsoluteCommandsAux (lastPoint.1, y) firstPoint rest
  | lastPoint, _, .m dx dy :: rest =>
      .M (lastPoint.1 + dx, lastPoint.2 + dy) ::
        toAbsoluteCommandsAux (lastPoint.1 + dx, lastPoint.2 + dy)
          (lastPoint.1 + dx, lastPoint.2 + dy) rest
  | lastPoint, firstPoint, .l dx dy :: rest =>
      .L (lastPoint.1 + dx, lastPoint.2 + dy) ::
        toAbsoluteCommandsAux (lastPoint.1 + dx, lastPoint.2 + dy) firstPoint rest
  | lastPoint, firstPoint, .h dx :: rest =>
      .L (lastPoint.1 + dx, lastPoint.2) ::
        toAbsoluteCommandsAux (lastPoint.1 + dx, lastPoint.2) firstPoint rest
  | lastPoint, firstPoint, .v dy :: rest =>
      .L (lastPoint.1, lastPoint.2 + dy) ::
        toAbsoluteCommandsAux (lastPoint.1, lastPoint.2 + dy) firstPoint rest
  | lastPoint, firstPoint, .c x1 y1 x2 y2 x y :: rest =>
      .C (lastPoint.1 + x1, lastPoint.2 + y1) (lastPoint.1 + x2, lastPoint.2 + y2)
          (lastPoint.1 + x, lastPoint.2 + y) ::
        toAbsoluteCommandsAux (lastPoint.1 + x, lastPoint.2 + y) firstPoint rest
  | lastPoint, firstPoint, .s x2 y2 x y :: rest =>
      .S (lastPoint.1 + x2, lastPoint.2 + y2) (lastPoint.1 + x, lastPoint.2 + y) ::
        toAbsoluteCommandsAux (lastPoint.1 + x, lastPoint.2 + y) firstPoint rest
  | lastPoint, firstPoint, .q x1 y1 x y :: rest =>
      .Q (lastPoint.1 + x1, lastPoint.2 + y1) (lastPoint.1 + x, lastPoint.2 + y) ::
        toAbsoluteCommandsAux (lastPoint.1 + x, lastPoint.2 + y) firstPoint rest
  | lastPoint, firstPoint, .t x y :: rest =>
      .T (lastPoint.1 + x, lastPoint.2 + y) ::
        toAbsoluteCommandsAux (lastPoint.1 + x, lastPoint.2 + y) firstPoint rest
  | lastPoint, firstPoint, .a rx ry phi la sw dx dy :: rest =>
      .A rx ry phi la sw (lastPoint.1 + dx, lastPoint.2 + dy) ::
        toAbsoluteCommandsAux (lastPoint.1 + dx, lastPoint.2 + dy) firstPoint rest

/-- `toAbsoluteCommands` from `primitives/PathCommand.ts`; the generator
starts with `lastPoint = firstPoint = [0, 0]`. -/
def toAbsoluteCommands (commands : List PathCommand) : List AbsolutePathCommand :=
  toAbsoluteCommandsAux (0, 0) (0, 0) commands

/-- The single error kind of the path adapter (`badSequence` throws
`"Bad SVG path data sequence."` in `primitives/Path.ts`). -/
inductive PathError where
  | badSequence
deriving Repr, DecidableEq

/-- `reflectControlPoint` from `primitives/Path.ts`. -/
def reflectControlPoint (point controlPoint : Vector) : Vector :=
  (2 * point.1 - controlPoint.1, 2 * point.2 - controlPoint.2)

/-- The loop body of `pathFromCommands` from `primitives/Path.ts`, with the
generator state (`firstPoint`, `lastPoint`, `lastControlPoint`) made
explicit and the thrown error reified as `Except.error`. -/
def pathFromAbsoluteCommandsAux :
    Option Vector → Option Vector → Option Vector → List AbsolutePathCommand →
      Except PathError (List PathSegment)
  | _, _, _, [] => .ok []
  | _, _, _, .M p :: rest =>
      pathFromAbsoluteCommandsAux (some p) (some p) none rest
  | firstPoint, lastPoint, _, .L p :: rest =>
      match lastPoint with
      | none => .error .badSequence
      | some lp =>
          (pathFromAbsoluteCommandsAux firstPoint (some p) none rest).map
            (fun segs => .line lp p :: segs)
  | firstPoint, lastPoint, _, .C c1 c2 p :: rest =>
      match lastPoint with
      | none => .error .badSequence
      | some lp =>
          (pathFromAbsoluteCommandsAux firstPoint (some p) (some c2) rest).map
            (fun segs => .cubic lp c1 c2 p :: segs)
  | firstPoint, lastPoint, lastControlPoint, .S c2 p :: rest =>
      match lastPoint with
      | none => .error .badSequence
      | some lp =>
          match lastControlPoint with
          | none => .error .badSequence
          | some lcp =>
              (pathFromAbsoluteCommandsAux firstPoint (some p) (some c2) rest).map
                (fun segs => .cubic lp (reflectControlPoint lp lcp) c2 p :: segs)
  | firstPoint, lastPoint, _, .Q cp p :: rest =>
      match lastPoint with
      | none => .error .badSequence
      | some lp =>
          (pathFromAbsoluteCommandsAux firstPoint (some p) (some cp) rest).map
            (fun segs => .quadratic lp cp p :: segs)
  | firstPoint, lastPoint, lastControlPoint, .T p :: rest =>
      match lastPoint with
      | none => .error .badSequence
      | some lp =>
          match lastControlPoint with
          | none => .error .badSequence
          | some lcp =>
              (pathFromAbsoluteCommandsAux firstPoint (some p)
                  (some (reflectControlPoint lp lcp)) rest).map
                (fun segs => .quadratic lp (reflectControlPoint lp lcp) p :: segs)
  | firstPoint, lastPoint, _, .A rx ry phi la sw p :: rest =>
      match lastPoint with
      | none => .error .badSequence
      | some lp =>
          (pathFromAbsoluteCommandsAux firstPoint (some p) none rest).map
            (fun segs => .arc lp rx ry phi la sw p :: segs)
  | firstPoint, lastPoint, _, .Z :: rest =>
      match lastPoint with
      | none => .error .badSequence
      | some lp =>
          match firstPoint with
          | none => .error .badSequence
          | some fp =>
              (pathFromAbsoluteCommandsAux firstPoint (some fp) none rest).map
                (fun segs => .line lp fp :: segs)

/-- `pathFromCommands` from `primitives/Path.ts`: convert an SVG command
stream into segments, first normalizing via `toAbsoluteCommands`. -/
def pathFromCommands (commands : List PathCommand) : Except PathError (List PathSegment) :=
  pathFromAbsoluteCommandsAux none none none (toAbsoluteCommands commands)

/-- The loop body of `pathToCommands` from `primitives/Path.ts`, with the
generator state `lastPoint` made explicit: a move is emitted whenever the
next segment's start is not within `eps` of the running last point. -/
def pathToCommandsAux (eps : ℚ) : Option Vector → List PathSegment → List PathCommand
  | _, [] => []
  | lastPoint, seg :: rest =>
    let emitMove : Bool :=
      match lastPoint with
      | none => true
      | some lp => !vectorsEqual (getStartPoint seg) lp eps
    let move : List PathCommand := if emitMove then [.M (getStartPoint seg)] else []
    let draw : List PathCommand :=
      match seg with
      | .line _ p1 => [.L p1]
      | .cubic _ c1 c2 p1 => [.C c1 c2 p1]
      | .quadratic _ cp p1 => [.Q cp p1]
      | .arc _ rx ry phi la sw p1 => [.A rx ry phi la sw p1]
    move ++ draw ++ pathToCommandsAux eps (some (getEndPoint seg)) rest

/-- `pathToCommands(segments, eps)` from `primitives/Path.ts`. -/
def pathToCommands (segments : List PathSegment) (eps : ℚ) : List PathCommand :=
  pathToCommandsAux eps none segments

/-- A command that leaves a stored control point behind
(`lastControlPoint ≠ null` after it): exactly C, S, Q, T. -/
def setsControlPoint : AbsolutePathCommand → Bool
  | .C _ _ _ => true
  | .S _ _ => true
  | .Q _ _ => true
  | .T _ => true
  | _ => false

/-- A smooth shorthand command (S or T). -/
def isSmoothCommand : AbsolutePathCommand → Bool
  | .S _ _ => true
  | .T _ => true
  | _ => false

def isMoveTo : AbsolutePathCommand → Bool
  | .M _ => true
  | _ => false

/-- The error conditions named by the claim, over the normalized command
stream: a command sequence that begins with a drawing command without a
preceding move-to, or a close command with no open sub-path.  Both
conditions amount to the stream starting with a non-move command (after a
move-to, every command has a preceding move-to and an open sub-path). -/
def claimedBadSequence : List AbsolutePathCommand → Bool
  | [] => false
  | cmd :: _ => !isMoveTo cmd

/-- The additional error condition of the source: a smooth command (S/T)
whose immediately preceding command did not leave a control point. -/
def smoothWithoutControl (cmds : List AbsolutePathCommand) : Bool :=
  (cmds.zip cmds.tail).any fun pr => isSmoothCommand pr.2 && !setsControlPoint pr.1

/-- Scanner equivalent of the error behaviour of
`pathFromAbsoluteCommandsAux` once a move-to has been seen; the Boolean
argument records whether a control point is currently stored. -/
def scanBadAux (hasControl : Bool) : List AbsolutePathCommand → Bool
  | [] => false
  | .M _ :: rest => scanBadAux false rest
  | .L _ :: rest => scanBadAux false rest
  | .C _ _ _ :: rest => scanBadAux true rest
  | .S _ _ :: rest => !hasControl || scanBadAux true rest
  | .Q _ _ :: rest => scanBadAux true rest
  | .T _ :: rest => !hasControl || scanBadAux true rest
  | .A _ _ _ _ _ _ :: rest => scanBadAux false rest
  | .Z :: rest => scanBadAux false rest

theorem exceptMap_eq_error_iff {α β γ : Type} (f : α → β) (x : Except γ α) (e : γ) :
    x.map f = .error e ↔ x = .error e := by
  cases x <;> simp [Except.map]

theorem pathFromAbs_error_scan (cmds : List AbsolutePathCommand) :
    ∀ (fp lp : Vector) (lcp : Option Vector),
      (pathFromAbsoluteCommandsAux (some fp) (some lp) lcp cmds = .error .badSequence ↔
        scanBadAux lcp.isSome cmds = true) := by
  induction cmds with
  | nil => intro fp lp lcp; simp [pathFromAbsoluteCommandsAux, scanBadAux]
  | cons cmd rest ih =>
    intro fp lp lcp
    cases cmd <;> cases lcp <;>
      simp [pathFromAbsoluteCommandsAux, scanBadAux, exceptMap_eq_error_iff, ih]

theorem smoothWithoutControl_cons (x y : AbsolutePathCommand)
    (tl : List AbsolutePathCommand) :
    smoothWithoutControl (x :: y :: tl) =
      ((isSmoothCommand y && !setsControlPoint x) || smoothWithoutControl (y :: tl)) := by
  simp [smoothWithoutControl]

theorem scanBadAux_eq_smoothWithoutControl :
    ∀ (rest : List AbsolutePathCommand) (prev : AbsolutePathCommand),
      scanBadAux (setsControlPoint prev) rest = smoothWithoutControl (prev :: rest)
  | [], prev => by simp [scanBadAux, smoothWithoutControl]
  | hd :: tl, prev => by
    rw [smoothWithoutControl_cons]
    have htl := scanBadAux_eq_smoothWithoutControl tl hd
    cases hd <;>
      simp only [scanBadAux, isSmoothCommand, setsControlPoint, Bool.false_and,
        Bool.true_and, Bool.false_or] at htl ⊢ <;>
      rw [htl]

/-- C5 (amended): `pathFromCommands` raises exactly for: a command sequence
that begins with a drawing command without a preceding move-to, a close
command with no open sub-path, or a smooth command (S/T) whose preceding
command left no control point.  The error is a single kind (`PathError`
has exactly the one constructor `badSequence`). -/
theorem pathFromCommands_error_characterization (commands : List PathCommand) :
    pathFromCommands commands = .error .badSequence ↔
      (claimedBadSequence (toAbsoluteCommands commands) ||
        smoothWithoutControl (toAbsoluteCommands commands)) = true := by
  unfold pathFromCommands
  generalize toAbsoluteCommands commands = cmds
  cases cmds with
  | nil => simp [pathFromAbsoluteCommandsAux, claimedBadSequence, smoothWithoutControl]
  | cons cmd rest =>
    cases cmd
    case M p =>
      have hstep :
          pathFromAbsoluteCommandsAux none none none (.M p :: rest) =
            pathFromAbsoluteCommandsAux (some p) (some p) none rest := rfl
      rw [hstep, pathFromAbs_error_scan rest p p none]
      have hscan := scanBadAux_eq_smoothWithoutControl rest (.M p)
      simp only [setsControlPoint] at hscan
      simp [claimedBadSequence, isMoveTo, Option.isSome, hscan]
    all_goals
      simp [pathFromAbsoluteCommandsAux, claimedBadSequence, isMoveTo]

/-- C5, counterexample to the claim as stated: `[M (0,0), S (1,1) (2,2)]`
neither begins with a drawing command without a move-to nor closes a
sub-path that is not open, yet `pathFromCommands` raises on it (the S has
no preceding control point). -/
theorem pathFromCommands_claim_counterexample :
    pathFromCommands [PathCommand.M (0, 0), PathCommand.S (1, 1) (2, 2)] =
      .error .badSequence ∧
    claimedBadSequence
        (toAbsoluteCommands [PathCommand.M (0, 0), PathCommand.S (1, 1) (2, 2)]) =
      false := by
  constructor <;> rfl

/-- Chain condition of C9 over a running previous endpoint: every segment
start that is within `eps` of the previous segment's end is exactly equal
to that end. -/
def chainOkFrom (eps : ℚ) : Option Vector → List PathSegment → Bool
  | _, [] => true
  | lastPoint, seg :: rest =>
    (match lastPoint with
     | none => true
     | some lp => !vectorsEqual (getStartPoint seg) lp eps || decide (getStartPoint seg = lp)) &&
    chainOkFrom eps (some (getEndPoint seg)) rest

theorem roundtrip_aux (eps : ℚ) :
    ∀ (segs : List PathSegment) (lp : Option Vector) (fp lcp : Option Vector)
      (s1 s2 : Vector),
      chainOkFrom eps lp segs = true →
      pathFromAbsoluteCommandsAux fp lp lcp
          (toAbsoluteCommandsAux s1 s2 (pathToCommandsAux eps lp segs)) = .ok segs := by
  intro segs
  induction segs with
  | nil => intro lp fp lcp s1 s2 _; cases lp <;> simp [pathToCommandsAux,
      toAbsoluteCommandsAux, pathFromAbsoluteCommandsAux]
  | cons seg rest ih =>
    intro lp fp lcp s1 s2 hchain
    simp only [chainOkFrom, Bool.and_eq_true] at hchain
    obtain ⟨hhead, htail⟩ := hchain
    cases lp with
    | none =>
      cases seg <;>
        simp only [getEndPoint] at htail <;>
        simp [pathToCommandsAux, toAbsoluteCommandsAux, pathFromAbsoluteCommandsAux,
          getStartPoint, getEndPoint, ih _ _ _ _ _ htail, Except.map]
    | some p =>
      by_cases hmove : vectorsEqual (getStartPoint seg) p eps
      · have hexact : getStartPoint seg = p := by
          simp [hmove] at hhead; exact hhead
        cases seg <;> simp only [getEndPoint] at htail <;>
          simp only [getStartPoint] at hexact hmove <;> subst hexact <;>
          simp [pathToCommandsAux, toAbsoluteCommandsAux, pathFromAbsoluteCommandsAux,
            getStartPoint, getEndPoint, hmove, ih _ _ _ _ _ htail, Except.map]
      · cases seg <;>
          simp only [getEndPoint] at htail <;>
          simp only [getStartPoint] at hmove <;>
          simp [pathToCommandsAux, toAbsoluteCommandsAux, pathFromAbsoluteCommandsAux,
            getStartPoint, getEndPoint, hmove, ih _ _ _ _ _ htail, Except.map]

/-- C9: for every path in which each segment's start point, whenever it
lies within `eps` of the previous segment's end point, is exactly equal to
that end point, `pathFromCommands` applied to the stream produced by
`pathToCommands` returns exactly the original segment list. -/
theorem pathToCommands_roundtrip (segs : List PathSegment) (eps : ℚ)
    (h : chainOkFrom eps none segs = true) :
    pathFromCommands (pathToCommands segs eps) = .ok segs :=
  roundtrip_aux eps segs none none none (0, 0) (0, 0) h

/-- Witness for C9 at a concrete two-segment path whose second segment
starts away from the first segment's end. -/
theorem pathToCommands_roundtrip_witness :
    chainOkFrom (1 / 10000) none
        [PathSegment.line (0, 0) (1, 0), PathSegment.cubic (2, 2) (3, 3) (4, 3) (5, 2)] =
      true ∧
    pathFromCommands
        (pathToCommands
          [PathSegment.line (0, 0) (1, 0), PathSegment.cubic (2, 2) (3, 3) (4, 3) (5, 2)]
          (1 / 10000)) =
      .ok [PathSegment.line (0, 0) (1, 0), PathSegment.cubic (2, 2) (3, 3) (4, 3) (5, 2)] :=
  ⟨by with_unfolding_all decide,
    pathToCommands_roundtrip
      [PathSegment.line (0, 0) (1, 0), PathSegment.cubic (2, 2) (3, 3) (4, 3) (5, 2)]
      (1 / 10000) (by with_unfolding_all decide)⟩

/-- `LineSegment = [Vector, Vector]` from `intersections/line-segment.ts`. -/
abbrev LineSegment : Type := Vector × Vector

/-- JavaScript `Number.MIN_VALUE`: the smallest positive double, the
subnormal value 2^(-1074). -/
def numberMinValue : ℚ := 1 / 2 ^ 1074

/-- `COLLINEAR_EPS = Number.MIN_VALUE * 64` from
`intersections/line-segment.ts`. -/
def COLLINEAR_EPS : ℚ := numberMinValue * 64

/-- The threshold asserted by the claim: 64 times the smallest positive
NORMAL double 2^(-1022).  The source actually uses `Number.MIN_VALUE`,
which is subnormal and 52 binades smaller. -/
def claimedCollinearThreshold : ℚ := 64 / 2 ^ 1022

/-- The Cramer denominator `a1 * b2 - a2 * b1` computed inside
`lineSegmentIntersection`. -/
def cramerDenom (seg1 seg2 : LineSegment) : ℚ :=
  (seg1.2.1 - seg1.1.1) * (seg2.1.2 - seg2.2.2) -
    (seg1.2.2 - seg1.1.2) * (seg2.1.1 - seg2.2.1)

/-- The Cramer solution (s, t) computed inside `lineSegmentIntersection`. -/
def cramerST (seg1 seg2 : LineSegment) : ℚ × ℚ :=
  let a1 := seg1.2.1 - seg1.1.1
  let b1 := seg2.1.1 - seg2.2.1
  let c1 := seg2.1.1 - seg1.1.1
  let a2 := seg1.2.2 - seg1.1.2
  let b2 := seg2.1.2 - seg2.2.2
  let c2 := seg2.1.2 - seg1.1.2
  let denom := a1 * b2 - a2 * b1
  ((c1 * b2 - c2 * b1) / denom, (a1 * c2 - a2 * c1) / denom)

/-- Both parameters lie in [−eps, 1+eps]. -/
def paramInRange (eps : ℚ) (st : ℚ × ℚ) : Bool :=
  decide (-eps ≤ st.1 ∧ st.1 ≤ 1 + eps ∧ -eps ≤ st.2 ∧ st.2 ≤ 1 + eps)

/-- `lineSegmentIntersection` from `intersections/line-segment.ts`:
Cramer's rule with a collinearity rejection and a parameter-range check. -/
def lineSegmentIntersection (seg1 seg2 : LineSegment) (eps : ℚ) : Option (ℚ × ℚ) :=
  let a1 := seg1.2.1 - seg1.1.1
  let b1 := seg2.1.1 - seg2.2.1
  let c1 := seg2.1.1 - seg1.1.1
  let a2 := seg1.2.2 - seg1.1.2
  let b2 := seg2.1.2 - seg2.2.2
  let c2 := seg2.1.2 - seg1.1.2
  let denom := a1 * b2 - a2 * b1
  if rabs denom < COLLINEAR_EPS then none
  else
    let s := (c1 * b2 - c2 * b1) / denom
    let t := (a1 * c2 - a2 * c1) / denom
    if -eps ≤ s ∧ s ≤ 1 + eps ∧ -eps ≤ t ∧ t ≤ 1 + eps then some (s, t)
    else none

/-- C7, counterexample to the claim as stated: for the segment pair below,
the Cramer denominator is 2^(-1020), smaller than 64 times the smallest
positive normal double (the threshold the claim names), yet
`lineSegmentIntersection` does not return null — the source compares
against `Number.MIN_VALUE * 64 = 2^(-1068)`, which is far smaller.
All values involved are exactly representable as binary64 doubles and all
the arithmetic on them is exact, so the rational model agrees with the
floating-point run. -/
theorem lineSegmentIntersection_claim_counterexample :
    rabs (cramerDenom ((0, 0), (1 / 2 ^ 1020, 0)) ((0, 0), (0, -1))) <
      claimedCollinearThreshold ∧
    lineSegmentIntersection ((0, 0), (1 / 2 ^ 1020, 0)) ((0, 0), (0, -1))
        (1 / 100000000) = some (0, 0) := by
  constructor
  · simp only [cramerDenom, claimedCollinearThreshold, rabs]
    norm_num
  · simp only [lineSegmentIntersection, COLLINEAR_EPS, numberMinValue, rabs]
    norm_num

/-- C7 (amended): `lineSegmentIntersection` returns null whenever the
absolute Cramer denominator is below `64 * Number.MIN_VALUE` (64 times the
smallest positive double, a subnormal — not the smallest normal double);
otherwise it returns the Cramer parameter pair exactly when both
parameters lie in [−eps, 1+eps], and null in all other cases. -/
theorem lineSegmentIntersection_characterization (seg1 seg2 : LineSegment) (eps : ℚ) :
    (rabs (cramerDenom seg1 seg2) < COLLINEAR_EPS →
      lineSegmentIntersection seg1 seg2 eps = none) ∧
    (COLLINEAR_EPS ≤ rabs (cramerDenom seg1 seg2) →
      lineSegmentIntersection seg1 seg2 eps =
        if paramInRange eps (cramerST seg1 seg2) then some (cramerST seg1 seg2)
        else none) := by
  obtain ⟨⟨x1, y1⟩, ⟨x2, y2⟩⟩ := seg1
  obtain ⟨⟨x3, y3⟩, ⟨x4, y4⟩⟩ := seg2
  constructor
  · intro h
    simp only [lineSegmentIntersection, cramerDenom] at h ⊢
    rw [if_pos h]
  · intro h
    have hnot : ¬ rabs ((x2 - x1) * (y3 - y4) - (y2 - y1) * (x3 - x4)) <
        COLLINEAR_EPS := by
      simp only [cramerDenom] at h
      exact not_lt.mpr h
    simp only [lineSegmentIntersection, cramerST, paramInRange]
    rw [if_neg hnot]
    by_cases hrange :
        -eps ≤ ((x3 - x1) * (y3 - y4) - (y3 - y1) * (x3 - x4)) /
            ((x2 - x1) * (y3 - y4) - (y2 - y1) * (x3 - x4)) ∧
          ((x3 - x1) * (y3 - y4) - (y3 - y1) * (x3 - x4)) /
              ((x2 - x1) * (y3 - y4) - (y2 - y1) * (x3 - x4)) ≤ 1 + eps ∧
          -eps ≤ ((x2 - x1) * (y3 - y1) - (y2 - y1) * (x3 - x1)) /
              ((x2 - x1) * (y3 - y4) - (y2 - y1) * (x3 - x4)) ∧
          ((x2 - x1) * (y3 - y1) - (y2 - y1) * (x3 - x1)) /
              ((x2 - x1) * (y3 - y4) - (y2 - y1) * (x3 - x4)) ≤ 1 + eps
    · rw [if_pos hrange, if_pos (by simpa using hrange)]
    · rw [if_neg hrange, if_neg (by simpa using hrange)]

/-- Witness for C7 at perpendicular unit segments through the origin. -/
theorem lineSegmentIntersection_characterization_witness :
    COLLINEAR_EPS ≤ rabs (cramerDenom ((0, 0), (1, 0)) ((0, 0), (0, 1))) ∧
    lineSegmentIntersection ((0, 0), (1, 0)) ((0, 0), (0, 1)) (1 / 100) =
      (if paramInRange (1 / 100) (cramerST ((0, 0), (1, 0)) ((0, 0), (0, 1)))
        then some (cramerST ((0, 0), (1, 0)) ((0, 0), (0, 1))) else none) :=
  ⟨by simp only [cramerDenom, COLLINEAR_EPS, numberMinValue, rabs]; norm_num,
    (lineSegmentIntersection_characterization ((0, 0), (1, 0)) ((0, 0), (0, 1))
        (1 / 100)).2
      (by simp only [cramerDenom, COLLINEAR_EPS, numberMinValue, rabs]; norm_num)⟩

/-- `QuadTree` from `QuadTree.ts`.  A node stores its bounding box, the
remaining depth budget, its `innerNodeCapacity`, the stored pairs, and —
once `ensureSubtrees` has run — four subtrees (`branch`); `leaf` is a node
whose `subtrees` is still null. -/
inductive QuadTree (T : Type) where
  | leaf (boundingBox : AABB) (depth innerNodeCapacity : ℕ) (pairs : List (AABB × T))
  | branch (boundingBox : AABB) (depth innerNodeCapacity : ℕ) (pairs : List (AABB × T))
      (t0 t1 t2 t3 : QuadTree T)

namespace QuadTree

def boundingBox {T : Type} : QuadTree T → AABB
  | leaf bb _ _ _ => bb
  | branch bb _ _ _ _ _ _ _ => bb

def depth {T : Type} : QuadTree T → ℕ
  | leaf _ d _ _ => d
  | branch _ d _ _ _ _ _ _ => d

def innerNodeCapacity {T : Type} : QuadTree T → ℕ
  | leaf _ _ cap _ => cap
  | branch _ _ cap _ _ _ _ _ => cap

def pairs {T : Type} : QuadTree T → List (AABB × T)
  | leaf _ _ _ ps => ps
  | branch _ _ _ ps _ _ _ _ => ps

/-- `new QuadTree(boundingBox, depth, innerNodeCapacity)`; the JS
constructor default for `innerNodeCapacity` is 16. -/
def make {T : Type} (boundingBox : AABB) (depth innerNodeCapacity : ℕ) : QuadTree T :=
  leaf boundingBox depth innerNodeCapacity []

/-- The four child boxes of `ensureSubtrees` (top-left, top-right,
bottom-left, bottom-right around the midpoints). -/
def childBoxes (bb : AABB) : AABB × AABB × AABB × AABB :=
  let midX := (bb.left + bb.right) / 2
  let midY := (bb.top + bb.bottom) / 2
  (⟨bb.top, midX, midY, bb.left⟩, ⟨bb.top, bb.right, midY, midX⟩,
    ⟨midY, midX, bb.bottom, bb.left⟩, ⟨midY, bb.right, bb.bottom, midX⟩)

/-- The JS `insert` specialized to a freshly created empty child of
`ensureSubtrees`: for any capacity ≥ 1 (all uses pass 8 or 16) it reduces
to an overlap-guarded push into the empty pair list. -/
def freshChild {T : Type} (box : AABB) (depth innerNodeCapacity : ℕ)
    (boundingBox : AABB) (value : T) : QuadTree T :=
  if boundingBoxesOverlap boundingBox box then
    leaf box depth innerNodeCapacity [(boundingBox, value)]
  else leaf box depth innerNodeCapacity []

/-- `QuadTree.insert` from `QuadTree.ts`.  On overflow (`depth > 0` and
`pairs.length ≥ innerNodeCapacity`) the node subdivides if necessary and
hands the pair to each of its four children (each child re-checks overlap
with its own region); otherwise the pair is pushed locally.  The JS method
additionally returns a boolean that no caller uses; it is omitted. -/
def insert {T : Type} : QuadTree T → AABB → T → QuadTree T
  | leaf bb d cap ps, boundingBox, value =>
    if !boundingBoxesOverlap boundingBox bb then leaf bb d cap ps
    else if 0 < d ∧ cap ≤ ps.length then
      let boxes := childBoxes bb
      branch bb d cap ps
        (freshChild boxes.1 (d - 1) cap boundingBox value)
        (freshChild boxes.2.1 (d - 1) cap boundingBox value)
        (freshChild boxes.2.2.1 (d - 1) cap boundingBox value)
        (freshChild boxes.2.2.2 (d - 1) cap boundingBox value)
    else leaf bb d cap (ps ++ [(boundingBox, value)])
  | branch bb d cap ps t0 t1 t2 t3, boundingBox, value =>
    if !boundingBoxesOverlap boundingBox bb then branch bb d cap ps t0 t1 t2 t3
    else if 0 < d ∧ cap ≤ ps.length then
      branch bb d cap ps (t0.insert boundingBox value) (t1.insert boundingBox value)
        (t2.insert boundingBox value) (t3.insert boundingBox value)
    else branch bb d cap (ps ++ [(boundingBox, value)]) t0 t1 t2 t3

/-- The JS `Set.add`: append only when the value is not already present. -/
def addToSet {T : Type} [DecidableEq T] (set : List T) (value : T) : List T :=
  if value ∈ set then set else set ++ [value]

/-- `QuadTree.find` from `QuadTree.ts`: collect all stored values whose
key box overlaps the query box, deduplicating through the accumulated
set. -/
def find {T : Type} [DecidableEq T] : QuadTree T → AABB → List T → List T
  | leaf bb _ _ ps, boundingBox, set =>
    if !boundingBoxesOverlap boundingBox bb then set
    else
      ps.foldl
        (fun s kv => if boundingBoxesOverlap boundingBox kv.1 then addToSet s kv.2 else s)
        set
  | branch bb _ _ ps t0 t1 t2 t3, boundingBox, set =>
    if !boundingBoxesOverlap boundingBox bb then set
    else
      let s :=
        ps.foldl
          (fun s kv => if boundingBoxesOverlap boundingBox kv.1 then addToSet s kv.2 else s)
          set
      t3.find boundingBox (t2.find boundingBox (t1.find boundingBox (t0.find boundingBox s)))

/-- `QuadTree.fromPairs(pairs, depth, innerNodeCapacity)` from
`QuadTree.ts`; the throw on empty input becomes `none`.  This static
helper has no caller anywhere in the repository. -/
def fromPairs {T : Type} (pairs : List (AABB × T)) (depth innerNodeCapacity : ℕ) :
    Option (QuadTree T) :=
  match pairs with
  | [] => none
  | (bb0, _) :: rest =>
    let boundingBox := rest.foldl (fun acc p => mergeBoundingBoxes (some acc) p.1) bb0
    some (pairs.foldl (fun t p => insert t p.1 p.2) (make boundingBox depth innerNodeCapacity))

/-- `fromPairs` with its default capacity argument, 8. -/
def fromPairsDefault {T : Type} (pairs : List (AABB × T)) (depth : ℕ) : Option (QuadTree T) :=
  fromPairs pairs depth 8

end QuadTree

/-- `INTERSECTION_TREE_DEPTH` from `path-boolean.ts`. -/
def INTERSECTION_TREE_DEPTH : ℕ := 8

/-- `POINT_TREE_DEPTH` from `path-boolean.ts`. -/
def POINT_TREE_DEPTH : ℕ := 8

/-- The intersection-phase edge tree of `splitAtIntersections`:
`new QuadTree<number>(totalBoundingBox, INTERSECTION_TREE_DEPTH)`, which
takes the constructor default capacity 16 (values are edge indices). -/
def intersectionEdgeTree (totalBoundingBox : AABB) : QuadTree ℕ :=
  QuadTree.make totalBoundingBox INTERSECTION_TREE_DEPTH 16

/-- The vertex-snapping point tree of `findVertices`:
`new QuadTree<MajorGraphVertex>(boundingBox, POINT_TREE_DEPTH)`, which
takes the constructor default capacity 16 (values are vertex indices). -/
def pointVertexTree (boundingBox : AABB) : QuadTree ℕ :=
  QuadTree.make boundingBox POINT_TREE_DEPTH 16

/-- Every node with positive remaining depth holds at most
`innerNodeCapacity` pairs, and every capacity is at least 1. -/
def nodesWithinCapacity {T : Type} : QuadTree T → Prop
  | .leaf _ d cap ps => (0 < d → ps.length ≤ cap) ∧ 1 ≤ cap
  | .branch _ d cap ps t0 t1 t2 t3 =>
    ((0 < d → ps.length ≤ cap) ∧ 1 ≤ cap) ∧
      nodesWithinCapacity t0 ∧ nodesWithinCapacity t1 ∧
      nodesWithinCapacity t2 ∧ nodesWithinCapacity t3

theorem freshChild_within {T : Type} (box : AABB) (d cap : ℕ) (qb : AABB) (v : T)
    (hcap : 1 ≤ cap) : nodesWithinCapacity (QuadTree.freshChild box d cap qb v) := by
  unfold QuadTree.freshChild
  split
  · exact ⟨fun _ => hcap, hcap⟩
  · exact ⟨fun _ => Nat.zero_le cap, hcap⟩

theorem insert_nodesWithinCapacity {T : Type} (t : QuadTree T) (qb : AABB) (v : T)
    (h : nodesWithinCapacity t) : nodesWithinCapacity (t.insert qb v) := by
  induction t with
  | leaf bb d cap ps =>
    obtain ⟨hlen, hcap⟩ := h
    simp only [QuadTree.insert]
    split
    · exact ⟨hlen, hcap⟩
    · split
      · exact ⟨⟨hlen, hcap⟩, freshChild_within _ _ _ _ _ hcap,
          freshChild_within _ _ _ _ _ hcap, freshChild_within _ _ _ _ _ hcap,
          freshChild_within _ _ _ _ _ hcap⟩
      · rename_i hnfull
        refine ⟨fun hd => ?_, hcap⟩
        have hlt : ps.length < cap := by
          by_contra hge
          exact hnfull ⟨hd, Nat.le_of_not_lt hge⟩
        simpa using hlt
  | branch bb d cap ps t0 t1 t2 t3 ih0 ih1 ih2 ih3 =>
    obtain ⟨⟨hlen, hcap⟩, h0, h1, h2, h3⟩ := h
    simp only [QuadTree.insert]
    split
    · exact ⟨⟨hlen, hcap⟩, h0, h1, h2, h3⟩
    · split
      · exact ⟨⟨hlen, hcap⟩, ih0 h0, ih1 h1, ih2 h2, ih3 h3⟩
      · rename_i hnfull
        refine ⟨⟨fun hd => ?_, hcap⟩, h0, h1, h2, h3⟩
        have hlt : ps.length < cap := by
          by_contra hge
          exact hnfull ⟨hd, Nat.le_of_not_lt hge⟩
        simpa using hlt

theorem addToSet_nodup {T : Type} [DecidableEq T] (s : List T) (v : T)
    (h : s.Nodup) : (QuadTree.addToSet s v).Nodup := by
  unfold QuadTree.addToSet
  split
  · exact h
  · rename_i hmem
    simp [List.nodup_append, h, hmem]

theorem foldl_addToSet_nodup {T : Type} [DecidableEq T]
    (ps : List (AABB × T)) (qb : AABB) :
    ∀ s : List T, s.Nodup →
      (ps.foldl
        (fun s kv =>
          if boundingBoxesOverlap qb kv.1 then QuadTree.addToSet s kv.2 else s) s).Nodup := by
  induction ps with
  | nil => intro s h; exact h
  | cons kv rest ih =>
    intro s h
    simp only [List.foldl_cons]
    split
    · exact ih _ (addToSet_nodup s kv.2 h)
    · exact ih _ h

theorem find_nodup {T : Type} [DecidableEq T] (t : QuadTree T) (qb : AABB) :
    ∀ s : List T, s.Nodup → (t.find qb s).Nodup := by
  induction t with
  | leaf bb d cap ps =>
    intro s h
    simp only [QuadTree.find]
    split
    · exact h
    · exact foldl_addToSet_nodup ps qb s h
  | branch bb d cap ps t0 t1 t2 t3 ih0 ih1 ih2 ih3 =>
    intro s h
    simp only [QuadTree.find]
    split
    · exact h
    · exact ih3 _ (ih2 _ (ih1 _ (ih0 _ (foldl_addToSet_nodup ps qb s h))))

/-- C8, counterexample to the claim as stated: the intersection-phase tree
(the quadtree `splitAtIntersections` builds over the edge bounding boxes)
is constructed with `new QuadTree(totalBoundingBox, INTERSECTION_TREE_DEPTH)`
and therefore takes the constructor default capacity 16, not 8; the
`fromPairs` static helper, whose default capacity is 8, has no caller
anywhere in the repository. -/
theorem quadTree_capacity_claim_counterexample :
    (intersectionEdgeTree ⟨0, 1, 1, 0⟩).innerNodeCapacity = 16 ∧
    ¬ (intersectionEdgeTree ⟨0, 1, 1, 0⟩).innerNodeCapacity = 8 := by
  constructor
  · rfl
  · intro h
    simp [intersectionEdgeTree, QuadTree.make, QuadTree.innerNodeCapacity] at h

/-- C8 (amended): every quadtree node with positive remaining depth stores
at most `innerNodeCapacity` pairs; on overflow at positive depth the node
subdivides and hands the inserted item to each of its four children, and a
(sub)tree whose region does not overlap the inserted box ignores the item
— so an item can be stored several times, and queries deduplicate through
a set.  The capacity is 16 (the constructor default) for both pipeline
trees, including the intersection-phase edge tree; 8 is only the default
capacity of the uncalled `fromPairs` helper. -/
theorem quadTree_capacity_and_overflow (T : Type) [inst : DecidableEq T] :
    (∀ bb, (intersectionEdgeTree bb).innerNodeCapacity = 16 ∧
      (pointVertexTree bb).innerNodeCapacity = 16) ∧
    (∀ (ps : List (AABB × T)) d,
      QuadTree.fromPairsDefault ps d = QuadTree.fromPairs ps d 8) ∧
    (∀ (t : QuadTree T) qb v,
      nodesWithinCapacity t → nodesWithinCapacity (t.insert qb v)) ∧
    (∀ bb d cap (ps : List (AABB × T)) t0 t1 t2 t3 qb v,
      boundingBoxesOverlap qb bb = true → 0 < d → cap ≤ ps.length →
      QuadTree.insert (.branch bb d cap ps t0 t1 t2 t3) qb v =
        .branch bb d cap ps (t0.insert qb v) (t1.insert qb v)
          (t2.insert qb v) (t3.insert qb v)) ∧
    (∀ (t : QuadTree T) qb v,
      boundingBoxesOverlap qb t.boundingBox = false → t.insert qb v = t) ∧
    (∀ (t : QuadTree T) qb (s : List T), s.Nodup → (t.find qb s).Nodup) := by
  refine ⟨fun bb => ⟨rfl, rfl⟩, fun ps d => rfl,
    fun t qb v h => insert_nodesWithinCapacity t qb v h,
    fun bb d cap ps t0 t1 t2 t3 qb v hov hd hfull => ?_,
    fun t qb v h => ?_, fun t qb s h => find_nodup t qb s h⟩
  · simp [QuadTree.insert, hov, hd, hfull]
  · cases t <;> simp_all [QuadTree.insert, QuadTree.boundingBox]

/-- Witness for C8: the overflow equation at a concrete full node of
positive depth, and the capacity bound at a concrete tree. -/
theorem quadTree_capacity_and_overflow_witness :
    QuadTree.insert
        (.branch ⟨0, 4, 4, 0⟩ 1 1 [(⟨0, 1, 1, 0⟩, 5)]
          (QuadTree.make ⟨0, 2, 2, 0⟩ 0 1) (QuadTree.make ⟨0, 4, 2, 2⟩ 0 1)
          (QuadTree.make ⟨2, 2, 4, 0⟩ 0 1) (QuadTree.make ⟨2, 4, 4, 2⟩ 0 1))
        ⟨1, 3, 3, 1⟩ (7 : ℕ) =
      .branch ⟨0, 4, 4, 0⟩ 1 1 [(⟨0, 1, 1, 0⟩, 5)]
        ((QuadTree.make ⟨0, 2, 2, 0⟩ 0 1).insert ⟨1, 3, 3, 1⟩ 7)
        ((QuadTree.make ⟨0, 4, 2, 2⟩ 0 1).insert ⟨1, 3, 3, 1⟩ 7)
        ((QuadTree.make ⟨2, 2, 4, 0⟩ 0 1).insert ⟨1, 3, 3, 1⟩ 7)
        ((QuadTree.make ⟨2, 4, 4, 2⟩ 0 1).insert ⟨1, 3, 3, 1⟩ 7) :=
  (quadTree_capacity_and_overflow ℕ).2.2.2.1 ⟨0, 4, 4, 0⟩ 1 1 [(⟨0, 1, 1, 0⟩, 5)]
    _ _ _ _ ⟨1, 3, 3, 1⟩ 7 (by with_unfolding_all decide) (by decide)
    (by decide)

/-- `segmentsEqual` from `intersections/path-segment.ts`: type-matched
componentwise comparison within `pointEpsilon` (boolean flags exactly). -/
def segmentsEqual (seg0 seg1 : PathSegment) (pointEpsilon : ℚ) : Bool :=
  match seg0, seg1 with
  | .line a0 a1, .line b0 b1 =>
      vectorsEqual a0 b0 pointEpsilon && vectorsEqual a1 b1 pointEpsilon
  | .cubic a0 a1 a2 a3, .cubic b0 b1 b2 b3 =>
      vectorsEqual a0 b0 pointEpsilon && vectorsEqual a1 b1 pointEpsilon &&
        vectorsEqual a2 b2 pointEpsilon && vectorsEqual a3 b3 pointEpsilon
  | .quadratic a0 a1 a2, .quadratic b0 b1 b2 =>
      vectorsEqual a0 b0 pointEpsilon && vectorsEqual a1 b1 pointEpsilon &&
        vectorsEqual a2 b2 pointEpsilon
  | .arc a0 arx ary aphi ala asw a1, .arc b0 brx bry bphi bla bsw b1 =>
      vectorsEqual a0 b0 pointEpsilon && rabs (arx - brx) < pointEpsilon &&
        rabs (ary - bry) < pointEpsilon && rabs (aphi - bphi) < pointEpsilon &&
        ala == bla && asw == bsw && vectorsEqual a1 b1 pointEpsilon
  | _, _ => false

/-- `MajorGraphEdgeStage1` from `path-boolean.ts`. -/
structure MajorGraphEdgeStage1 where
  seg : PathSegment
  parent : ℕ
deriving Repr, DecidableEq

/-- `MajorGraphEdgeStage2` from `path-boolean.ts`. -/
structure MajorGraphEdgeStage2 where
  seg : PathSegment
  parent : ℕ
  boundingBox : AABB
deriving Repr, DecidableEq

/-- `MajorGraphVertex` from `path-boolean.ts`; `outgoingEdges` holds edge
indices into the graph's edge list (the JS object references). -/
structure MajorGraphVertex where
  point : Vector
  outgoingEdges : List ℕ
deriving Repr, DecidableEq

/-- `MajorGraphEdge` from `path-boolean.ts`; vertices and the twin edge
are referenced by index (the JS object references). -/
structure MajorGraphEdge where
  seg : PathSegment
  parent : ℕ
  boundingBox : AABB
  incidentVertices : ℕ × ℕ
  directionFlag : Bool
  twin : ℕ
deriving Repr, DecidableEq

instance : Inhabited MajorGraphEdge :=
  ⟨⟨.line (0, 0) (0, 0), 0, ⟨0, 0, 0, 0⟩, (0, 0), false, 0⟩⟩

/-- `MajorGraph` from `path-boolean.ts`. -/
structure MajorGraph where
  edges : List MajorGraphEdge
  vertices : List MajorGraphVertex
deriving Repr, DecidableEq

/-- The zero-length discard switch of `findVertices` (`path-boolean.ts`),
consulted only when the snapped start vertex equals the snapped end
vertex.  Note that for arcs the source tests `edge.seg[5]`, which in the
`PathArcSegment` tuple is the LARGE-ARC flag. -/
def discardsZeroLengthSegment : PathSegment → Bool
  | .line _ _ => true
  | .cubic p0 c1 c2 p1 =>
      vectorsEqual p0 c1 EPS.point && vectorsEqual c2 p1 EPS.point
  | .quadratic p0 c _ => vectorsEqual p0 c EPS.point
  | .arc _ _ _ _ largeArc _ _ => !largeArc

/-- The discard condition exactly as the claim states it: for arcs it
names the SWEEP flag instead of the large-arc flag. -/
def claimedDiscard : PathSegment → Bool
  | .line _ _ => true
  | .cubic p0 c1 c2 p1 =>
      vectorsEqual p0 c1 EPS.point && vectorsEqual c2 p1 EPS.point
  | .quadratic p0 c _ => vectorsEqual p0 c EPS.point
  | .arc _ _ _ _ _ sweep _ => !sweep

/-- The mutable state of `findVertices`: the vertex quadtree, the vertex
pool, the edge pool, and `vertexPairIdToEdges` (keyed by the vertex index
pair, holding the (forward, backward) edge index pairs). -/
structure FindVerticesState where
  tree : QuadTree ℕ
  vertices : List MajorGraphVertex
  edges : List MajorGraphEdge
  pairMap : List ((ℕ × ℕ) × List (ℕ × ℕ))

/-- `getVertex` from `findVertices`: query the vertex tree with an
`EPS.point` box around the point; reuse the first hit (the JS set yields
insertion order) or create a new vertex. -/
def getVertex (st : FindVerticesState) (point : Vector) : FindVerticesState × ℕ :=
  match st.tree.find (boundingBoxAroundPoint point EPS.point) [] with
  | v :: _ => (st, v)
  | [] =>
      ({ st with
          tree := st.tree.insert (boundingBoxAroundPoint point EPS.point)
            st.vertices.length,
          vertices := st.vertices ++ [⟨point, []⟩] }, st.vertices.length)

def lookupPairEntries (m : List ((ℕ × ℕ) × List (ℕ × ℕ))) (k : ℕ × ℕ) :
    Option (List (ℕ × ℕ)) :=
  (m.find? fun e => e.1 == k).map (·.2)

def insertPairEntry (m : List ((ℕ × ℕ) × List (ℕ × ℕ))) (k : ℕ × ℕ) (v : ℕ × ℕ) :
    List ((ℕ × ℕ) × List (ℕ × ℕ)) :=
  match m with
  | [] => [(k, [v])]
  | e :: rest => if e.1 == k then (e.1, e.2 ++ [v]) :: rest else e :: insertPairEntry rest k v

/-- In-place update of the element at index `i` (the JS mutation of an
object already stored in the array). -/
def modifyNth {α : Type} (f : α → α) : ℕ → List α → List α
  | _, [] => []
  | 0, a :: rest => f a :: rest
  | n + 1, a :: rest => a :: modifyNth f n rest

/-- `existingEdge.parent |= edge.parent` on the edge at index `i`. -/
def orParentAt (edges : List MajorGraphEdge) (i : ℕ) (parent : ℕ) : List MajorGraphEdge :=
  modifyNth (fun e => { e with parent := e.parent ||| parent }) i edges

def pushOutgoing (vertices : List MajorGraphVertex) (i edgeIdx : ℕ) : List MajorGraphVertex :=
  modifyNth (fun v => { v with outgoingEdges := v.outgoingEdges ++ [edgeIdx] }) i vertices

/-- The body of one `edges.flatMap` iteration of `findVertices` after both
endpoints have been snapped: discard snapped zero-length segments,
deduplicate coincident parallel edges (OR-ing the parent bits into the
stored pair), else create the twinned forward/backward edge pair. -/
def findVerticesCore (st2 : FindVerticesState) (edge : MajorGraphEdgeStage2)
    (startVertex endVertex : ℕ) : FindVerticesState :=
  if startVertex == endVertex && discardsZeroLengthSegment edge.seg then st2
  else
    match
      (match lookupPairEntries st2.pairMap (startVertex, endVertex) with
       | some entries =>
           entries.find? fun (fb : ℕ × ℕ) =>
             match st2.edges.get? fb.1 with
             | some e => segmentsEqual e.seg edge.seg EPS.point
             | none => false
       | none => none)
    with
    | some fb =>
        { st2 with
            edges := orParentAt (orParentAt st2.edges fb.1 edge.parent) fb.2 edge.parent }
    | none =>
        { st2 with
            edges := st2.edges ++
              [⟨edge.seg, edge.parent, edge.boundingBox, (startVertex, endVertex), false,
                  st2.edges.length + 1⟩,
                ⟨edge.seg, edge.parent, edge.boundingBox, (endVertex, startVertex), true,
                  st2.edges.length⟩],
            vertices :=
              pushOutgoing (pushOutgoing st2.vertices startVertex st2.edges.length)
                endVertex (st2.edges.length + 1),
            pairMap := insertPairEntry st2.pairMap (startVertex, endVertex)
              (st2.edges.length, st2.edges.length + 1) }

/-- One iteration of the `edges.flatMap` of `findVertices`: snap both
endpoints through the vertex tree, then run `findVerticesCore`. -/
def findVerticesStep (st : FindVerticesState) (edge : MajorGraphEdgeStage2) :
    FindVerticesState :=
  findVerticesCore
    (getVertex (getVertex st (getStartPoint edge.seg)).1 (getEndPoint edge.seg)).1
    edge (getVertex st (getStartPoint edge.seg)).2
    (getVertex (getVertex st (getStartPoint edge.seg)).1 (getEndPoint edge.seg)).2

/-- `findVertices` from `path-boolean.ts`: snap endpoints into shared
vertices via the point quadtree and build the directed twinned
multigraph. -/
def findVertices (edges : List MajorGraphEdgeStage2) (boundingBox : AABB) : MajorGraph :=
  let init : FindVerticesState := ⟨pointVertexTree boundingBox, [], [], []⟩
  let final := edges.foldl findVerticesStep init
  ⟨final.edges, final.vertices⟩

/-- Edge lists produced by `findVertices` consist of consecutive
(forward, backward) twin pairs; `n` is the absolute index of the first
listed edge. -/
def pairedFrom : ℕ → List MajorGraphEdge → Prop
  | _, [] => True
  | _, [_] => False
  | n, e1 :: e2 :: rest =>
      e1.twin = n + 1 ∧ e2.twin = n ∧
      e2.incidentVertices = (e1.incidentVertices.2, e1.incidentVertices.1) ∧
      e1.directionFlag = false ∧ e2.directionFlag = true ∧
      pairedFrom (n + 2) rest

theorem pairedFrom_orParentAt :
    ∀ (E : List MajorGraphEdge) (n i p : ℕ),
      pairedFrom n E → pairedFrom n (orParentAt E i p)
  | [], n, i, p => fun h => by
      cases i <;> exact h
  | [x], n, i, p => fun h => absurd h (by simp [pairedFrom])
  | e1 :: e2 :: rest, n, i, p => fun h => by
      obtain ⟨h1, h2, h3, h4, h5, h6⟩ := h
      match i with
      | 0 =>
          exact ⟨h1, h2, h3, h4, h5, h6⟩
      | 1 =>
          exact ⟨h1, h2, h3, h4, h5, h6⟩
      | i + 2 =>
          exact ⟨h1, h2, h3, h4, h5, pairedFrom_orParentAt rest (n + 2) i p h6⟩

theorem pairedFrom_append_pair :
    ∀ (E : List MajorGraphEdge) (n : ℕ) (e1 e2 : MajorGraphEdge),
      pairedFrom n E →
      e1.twin = n + E.length + 1 → e2.twin = n + E.length →
      e2.incidentVertices = (e1.incidentVertices.2, e1.incidentVertices.1) →
      e1.directionFlag = false → e2.directionFlag = true →
      pairedFrom n (E ++ [e1, e2])
  | [], n, e1, e2 => fun _ h1 h2 h3 h4 h5 => by
      refine ⟨by simpa using h1, by simpa using h2, h3, h4, h5, trivial⟩
  | [x], n, e1, e2 => fun h _ _ _ _ _ => absurd h (by simp [pairedFrom])
  | x1 :: x2 :: rest, n, e1, e2 => fun h h1 h2 h3 h4 h5 => by
      obtain ⟨g1, g2, g3, g4, g5, g6⟩ := h
      refine ⟨g1, g2, g3, g4, g5, ?_⟩
      exact pairedFrom_append_pair rest (n + 2) e1 e2 g6
        (by simp at h1 ⊢; omega) (by simp at h2 ⊢; omega) h3 h4 h5

theorem getVertex_edges (st : FindVerticesState) (p : Vector) :
    (getVertex st p).1.edges = st.edges := by
  unfold getVertex
  cases st.tree.find (boundingBoxAroundPoint p EPS.point) [] <;> rfl

theorem getVertex_pairMap (st : FindVerticesState) (p : Vector) :
    (getVertex st p).1.pairMap = st.pairMap := by
  unfold getVertex
  cases st.tree.find (boundingBoxAroundPoint p EPS.point) [] <;> rfl

theorem findVerticesCore_paired (st2 : FindVerticesState) (edge : MajorGraphEdgeStage2)
    (a b : ℕ) (h : pairedFrom 0 st2.edges) :
    pairedFrom 0 (findVerticesCore st2 edge a b).edges := by
  unfold findVerticesCore
  split
  · exact h
  · split
    · exact pairedFrom_orParentAt _ 0 _ _ (pairedFrom_orParentAt _ 0 _ _ h)
    · exact pairedFrom_append_pair _ 0 _ _ h (by simp) (by simp) rfl rfl rfl

theorem findVerticesStep_paired (st : FindVerticesState) (edge : MajorGraphEdgeStage2)
    (h : pairedFrom 0 st.edges) : pairedFrom 0 (findVerticesStep st edge).edges := by
  have hE : (getVertex (getVertex st (getStartPoint edge.seg)).1
      (getEndPoint edge.seg)).1.edges = st.edges := by
    rw [getVertex_edges, getVertex_edges]
  unfold findVerticesStep
  exact findVerticesCore_paired _ edge _ _ (hE ▸ h)

theorem findVertices_paired (edges : List MajorGraphEdgeStage2) (bb : AABB) :
    pairedFrom 0 (findVertices edges bb).edges := by
  suffices h : ∀ st : FindVerticesState, pairedFrom 0 st.edges →
      pairedFrom 0 (edges.foldl findVerticesStep st).edges by
    exact h ⟨pointVertexTree bb, [], [], []⟩ trivial
  induction edges with
  | nil => intro st h; exact h
  | cons e rest ih => intro st h; exact ih _ (findVerticesStep_paired st e h)

theorem pairedFrom_pair_fields :
    ∀ (E : List MajorGraphEdge) (n j : ℕ), pairedFrom n E → 2 * j < E.length →
      2 * j + 1 < E.length ∧
      (E.getD (2 * j) default).twin = n + 2 * j + 1 ∧
      (E.getD (2 * j + 1) default).twin = n + 2 * j ∧
      (E.getD (2 * j + 1) default).incidentVertices =
        ((E.getD (2 * j) default).incidentVertices.2,
          (E.getD (2 * j) default).incidentVertices.1) ∧
      (E.getD (2 * j) default).directionFlag = false ∧
      (E.getD (2 * j + 1) default).directionFlag = true
  | [], _, j => fun _ hj => by simp at hj
  | [x], _, j => fun h _ => absurd h (by simp [pairedFrom])
  | e1 :: e2 :: rest, n, j => fun h hj => by
      obtain ⟨h1, h2, h3, h4, h5, h6⟩ := h
      match j with
      | 0 =>
          exact ⟨by simp, by simpa using h1, by simpa using h2, by simpa using h3,
            by simpa using h4, by simpa using h5⟩
      | j + 1 =>
          have hlen : 2 * j < rest.length := by simp at hj; omega
          have hrec := pairedFrom_pair_fields rest (n + 2) j h6 hlen
          have e2j : 2 * (j + 1) = 2 * j + 1 + 1 := by omega
          rw [e2j]
          simp only [List.getD_cons_succ, List.length_cons]
          exact ⟨by omega, by rw [hrec.2.1]; omega, by rw [hrec.2.2.1]; omega,
            hrec.2.2.2.1, hrec.2.2.2.2.1, hrec.2.2.2.2.2⟩

/-- C6: for every directed edge `e` (given by its index `i`) in the major
graph produced by `findVertices`, the twin index is in range,
`twin(twin(e)) = e`, the twin's incident vertex pair is the reverse of
`e`'s, and the twin's `directionFlag` is the negation of `e`'s. -/
theorem findVertices_twin_involution (edges : List MajorGraphEdgeStage2)
    (bb : AABB) (i : ℕ) (hi : i < (findVertices edges bb).edges.length) :
    ((findVertices edges bb).edges.getD i default).twin <
        (findVertices edges bb).edges.length ∧
    ((findVertices edges bb).edges.getD
        ((findVertices edges bb).edges.getD i default).twin default).twin = i ∧
    ((findVertices edges bb).edges.getD
        ((findVertices edges bb).edges.getD i default).twin
        default).incidentVertices =
      (((findVertices edges bb).edges.getD i default).incidentVertices.2,
        ((findVertices edges bb).edges.getD i default).incidentVertices.1) ∧
    ((findVertices edges bb).edges.getD
        ((findVertices edges bb).edges.getD i default).twin default).directionFlag =
      !((findVertices edges bb).edges.getD i default).directionFlag := by
  have hp : pairedFrom 0 (findVertices edges bb).edges := findVertices_paired edges bb
  generalize hGen : (findVertices edges bb).edges = E at *
  rcases Nat.even_or_odd i with ⟨j, hj⟩ | ⟨j, hj⟩
  · have hij : i = 2 * j := by omega
    subst hij
    obtain ⟨hlt, ht0, ht1, hiv, hf0, hf1⟩ := pairedFrom_pair_fields E 0 j hp hi
    rw [ht0]
    simp only [Nat.zero_add]
    refine ⟨hlt, ?_, ?_, ?_⟩
    · rw [ht1]; omega
    · exact hiv
    · rw [hf0, hf1]; rfl
  · have hij : i = 2 * j + 1 := by omega
    subst hij
    have hj2 : 2 * j < E.length := by omega
    obtain ⟨hlt, ht0, ht1, hiv, hf0, hf1⟩ := pairedFrom_pair_fields E 0 j hp hj2
    rw [ht1]
    simp only [Nat.zero_add]
    refine ⟨by omega, by rw [ht0]; omega, ?_, ?_⟩
    · rw [hiv]
    · rw [hf0, hf1]; rfl

/-- Witness for C6: the twin facts at edge index 0 of the graph built from
a single line segment. -/
theorem findVertices_twin_involution_witness :
    0 < (findVertices [⟨.line (0, 0) (5, 5), 1, ⟨0, 5, 5, 0⟩⟩]
        ⟨0, 5, 5, 0⟩).edges.length ∧
    (((findVertices [⟨.line (0, 0) (5, 5), 1, ⟨0, 5, 5, 0⟩⟩]
          ⟨0, 5, 5, 0⟩).edges.getD 0 default).twin <
        (findVertices [⟨.line (0, 0) (5, 5), 1, ⟨0, 5, 5, 0⟩⟩]
          ⟨0, 5, 5, 0⟩).edges.length ∧
      ((findVertices [⟨.line (0, 0) (5, 5), 1, ⟨0, 5, 5, 0⟩⟩]
          ⟨0, 5, 5, 0⟩).edges.getD
          ((findVertices [⟨.line (0, 0) (5, 5), 1, ⟨0, 5, 5, 0⟩⟩]
            ⟨0, 5, 5, 0⟩).edges.getD 0 default).twin default).twin = 0 ∧
      ((findVertices [⟨.line (0, 0) (5, 5), 1, ⟨0, 5, 5, 0⟩⟩]
          ⟨0, 5, 5, 0⟩).edges.getD
          ((findVertices [⟨.line (0, 0) (5, 5), 1, ⟨0, 5, 5, 0⟩⟩]
            ⟨0, 5, 5, 0⟩).edges.getD 0 default).twin default).incidentVertices =
        (((findVertices [⟨.line (0, 0) (5, 5), 1, ⟨0, 5, 5, 0⟩⟩]
            ⟨0, 5, 5, 0⟩).edges.getD 0 default).incidentVertices.2,
          ((findVertices [⟨.line (0, 0) (5, 5), 1, ⟨0, 5, 5, 0⟩⟩]
            ⟨0, 5, 5, 0⟩).edges.getD 0 default).incidentVertices.1) ∧
      ((findVertices [⟨.line (0, 0) (5, 5), 1, ⟨0, 5, 5, 0⟩⟩]
          ⟨0, 5, 5, 0⟩).edges.getD
          ((findVertices [⟨.line (0, 0) (5, 5), 1, ⟨0, 5, 5, 0⟩⟩]
            ⟨0, 5, 5, 0⟩).edges.getD 0 default).twin default).directionFlag =
        !((findVertices [⟨.line (0, 0) (5, 5), 1, ⟨0, 5, 5, 0⟩⟩]
            ⟨0, 5, 5, 0⟩).edges.getD 0 default).directionFlag) :=
  ⟨by with_unfolding_all decide,
    findVertices_twin_involution [⟨.line (0, 0) (5, 5), 1, ⟨0, 5, 5, 0⟩⟩]
      ⟨0, 5, 5, 0⟩ 0 (by with_unfolding_all decide)⟩

/-- C4, counterexample to the claim as stated: an arc with coincident
endpoints, sweep = true and large-arc = false is one the claim says must
be preserved (its sweep flag is set), yet `findVertices` discards it —
the source's discard test reads `edge.seg[5]`, the LARGE-ARC flag, not
the sweep flag `edge.seg[6]`. -/
theorem findVertices_discard_claim_counterexample :
    claimedDiscard (.arc (0, 0) 1 1 0 false true (0, 0)) = false ∧
    (findVertices [⟨.arc (0, 0) 1 1 0 false true (0, 0), 1, ⟨-1, 1, 1, -1⟩⟩]
        ⟨-1, 1, 1, -1⟩).edges = [] := by
  with_unfolding_all decide

/-- C4 (amended): a split edge whose snapped start vertex equals its
snapped end vertex (the two endpoint boxes of radius `EPS.point` overlap,
so the end point snaps to the start's vertex) is discarded exactly when:
it is a Line; a Cubic whose control points also coincide (within
`EPS.point`) with their respective endpoints; a Quadratic whose control
point coincides with its start point; or an Arc whose LARGE-ARC flag is
false.  An arc with coincident endpoints and large-arc = true (the
full-sweep ellipse the pipeline itself generates) is preserved,
regardless of its sweep flag. -/
theorem findVertices_singleton_discard (seg : PathSegment) (parent : ℕ)
    (bbox bb : AABB)
    (h1 : boundingBoxesOverlap (boundingBoxAroundPoint (getStartPoint seg) EPS.point)
        bb = true)
    (h2 : boundingBoxesOverlap (boundingBoxAroundPoint (getEndPoint seg) EPS.point)
        bb = true) :
    (findVertices [⟨seg, parent, bbox⟩] bb).edges = [] ↔
      (boundingBoxesOverlap (boundingBoxAroundPoint (getEndPoint seg) EPS.point)
          (boundingBoxAroundPoint (getStartPoint seg) EPS.point) = true ∧
        discardsZeroLengthSegment seg = true) := by
  by_cases hov : boundingBoxesOverlap
      (boundingBoxAroundPoint (getEndPoint seg) EPS.point)
      (boundingBoxAroundPoint (getStartPoint seg) EPS.point) = true
  · by_cases hdisc : discardsZeroLengthSegment seg = true
    · simp [findVertices, findVerticesStep, findVerticesCore, getVertex, pointVertexTree, QuadTree.make,
        QuadTree.find, QuadTree.insert, QuadTree.addToSet, h1, h2, hov, hdisc,
        lookupPairEntries, insertPairEntry]
    · simp [findVertices, findVerticesStep, findVerticesCore, getVertex, pointVertexTree, QuadTree.make,
        QuadTree.find, QuadTree.insert, QuadTree.addToSet, h1, h2, hov, hdisc,
        lookupPairEntries, insertPairEntry]
  · simp [findVertices, findVerticesStep, findVerticesCore, getVertex, pointVertexTree, QuadTree.make,
      QuadTree.find, QuadTree.insert, QuadTree.addToSet, h1, h2, hov,
      lookupPairEntries, insertPairEntry]

/-- Witness for C4 at a concrete full-sweep arc (large-arc = true,
sweep = false) with coincident endpoints: the characterization applies and
shows it is kept. -/
theorem findVertices_singleton_discard_witness :
    ((findVertices [⟨.arc (0, 0) 1 1 0 true false (0, 0), 1, ⟨-1, 1, 1, -1⟩⟩]
        ⟨-1, 1, 1, -1⟩).edges = [] ↔
      (boundingBoxesOverlap
          (boundingBoxAroundPoint (getEndPoint (.arc (0, 0) 1 1 0 true false (0, 0)))
            EPS.point)
          (boundingBoxAroundPoint (getStartPoint (.arc (0, 0) 1 1 0 true false (0, 0)))
            EPS.point) = true ∧
        discardsZeroLengthSegment (.arc (0, 0) 1 1 0 true false (0, 0)) = true)) :=
  findVertices_singleton_discard (.arc (0, 0) 1 1 0 true false (0, 0)) 1
    ⟨-1, 1, 1, -1⟩ ⟨-1, 1, 1, -1⟩ (by with_unfolding_all decide)
    (by with_unfolding_all decide)

/-- `PathBooleanOperation` from `path-boolean.ts`. -/
inductive PathBooleanOperation where
  | Union
  | Difference
  | Intersection
  | Exclusion
  | Division
  | Fracture
deriving Repr, DecidableEq

/-- `FillRule` from `path-boolean.ts`. -/
inductive FillRule where
  | NonZero
  | EvenOdd
deriving Repr, DecidableEq

/-- `DualGraphHalfEdge` from `path-boolean.ts`; the incident face and the
twin half-edge are referenced by index into the global pools (the JS
object references). -/
structure DualGraphHalfEdge where
  segments : List PathSegment
  parent : ℕ
  incidentVertex : ℕ
  directionFlag : Bool
  twin : ℕ
deriving Repr, DecidableEq

instance : Inhabited DualGraphHalfEdge := ⟨⟨[], 0, 0, false, 0⟩⟩

/-- `DualGraphVertex` (a face of the arrangement) from `path-boolean.ts`:
its boundary half-edges (by index) and its two-bit flag
(bit 0 = inside A, bit 1 = inside B). -/
structure DualGraphVertex where
  incidentEdges : List ℕ
  flag : ℕ
deriving Repr, DecidableEq

instance : Inhabited DualGraphVertex := ⟨⟨[], 0⟩⟩

/-- The face and half-edge pools that dual-graph indices refer to. -/
structure DualGraphPools where
  faces : List DualGraphVertex
  halfEdges : List DualGraphHalfEdge
deriving Repr, DecidableEq

def faceAt (pools : DualGraphPools) (i : ℕ) : DualGraphVertex :=
  pools.faces.getD i default

def halfEdgeAt (pools : DualGraphPools) (i : ℕ) : DualGraphHalfEdge :=
  pools.halfEdges.getD i default

/-- `DualGraphComponent` from `path-boolean.ts`; faces and edges by
index. -/
structure DualGraphComponent where
  vertices : List ℕ
  edges : List ℕ
  outerFace : ℕ
deriving Repr, DecidableEq

/-- `NestingTree` from `path-boolean.ts`: a component and the containment
map from a face of this component to the child trees nested in it. -/
inductive NestingTree where
  | mk (component : DualGraphComponent) (outgoingEdges : List (ℕ × List NestingTree))

def NestingTree.component : NestingTree → DualGraphComponent
  | .mk c _ => c

def NestingTree.outgoingEdges : NestingTree → List (ℕ × List NestingTree)
  | .mk _ o => o

/-- `operationPredicates` from `path-boolean.ts`: the per-operation face
selection predicate over the two-bit flag. -/
def operationPredicates : PathBooleanOperation → DualGraphVertex → Bool
  | .Union => fun face => decide (0 < face.flag)
  | .Difference => fun face => face.flag == 1
  | .Intersection => fun face => face.flag == 3
  | .Exclusion => fun face => face.flag == 1 || face.flag == 2
  | .Division => fun face => face.flag &&& 1 == 1
  | .Fracture => fun face => decide (0 < face.flag)

mutual

/-- The `visit` generator of `getSelectedFaces` from `path-boolean.ts`:
faces of this tree's component that satisfy the predicate, then the faces
of all child trees. -/
def selectedFacesTree (pools : DualGraphPools) (p : DualGraphVertex → Bool) :
    NestingTree → List ℕ
  | .mk comp outgoing =>
      comp.vertices.filter (fun f => p (faceAt pools f)) ++
        selectedFacesEntries pools p outgoing

def selectedFacesEntries (pools : DualGraphPools) (p : DualGraphVertex → Bool) :
    List (ℕ × List NestingTree) → List ℕ
  | [] => []
  | (_, ts) :: rest =>
      selectedFacesForest pools p ts ++ selectedFacesEntries pools p rest

def selectedFacesForest (pools : DualGraphPools) (p : DualGraphVertex → Bool) :
    List NestingTree → List ℕ
  | [] => []
  | t :: rest => selectedFacesTree pools p t ++ selectedFacesForest pools p rest

end

/-- `getSelectedFaces(nestingTrees, predicate)` from `path-boolean.ts`. -/
def getSelectedFaces (pools : DualGraphPools) (trees : List NestingTree)
    (p : DualGraphVertex → Bool) : List ℕ :=
  selectedFacesForest pools p trees

mutual

/-- Same traversal with no predicate: every face of the nesting forest in
visit order. -/
def allFacesTree : NestingTree → List ℕ
  | .mk comp outgoing => comp.vertices ++ allFacesEntries outgoing

def allFacesEntries : List (ℕ × List NestingTree) → List ℕ
  | [] => []
  | (_, ts) :: rest => allFacesForest ts ++ allFacesEntries rest

def allFacesForest : List NestingTree → List ℕ
  | [] => []
  | t :: rest => allFacesTree t ++ allFacesForest rest

end

/-- The per-face path of `dumpFaces`: the face's boundary (segments
reversed where `directionFlag` is set), then the reversed boundaries of
the outer faces of the child components nested in this face (the poked
holes). -/
def edgeSegmentsOriented (e : DualGraphHalfEdge) : List PathSegment :=
  if e.directionFlag then e.segments.map reversePathSegment else e.segments

def faceBoundary (pools : DualGraphPools) (face : DualGraphVertex) : Path :=
  face.incidentEdges.flatMap (fun ei => edgeSegmentsOriented (halfEdgeAt pools ei))

def lookupChildren (entries : List (ℕ × List NestingTree)) (face : ℕ) :
    Option (List NestingTree) :=
  (entries.find? (fun e => e.1 == face)).map (·.2)

def dumpFaceOne (pools : DualGraphPools) (outgoing : List (ℕ × List NestingTree))
    (f : ℕ) : Path :=
  faceBoundary pools (faceAt pools f) ++
    (match lookupChildren outgoing f with
     | some subtrees =>
         subtrees.flatMap (fun st => faceBoundary pools (faceAt pools st.component.outerFace))
     | none => [])

mutual

/-- `dumpFaces` from `path-boolean.ts` (Division/Fracture extraction): one
path per selected non-outer face, with holes appended, then the paths of
the child trees. -/
def dumpFacesTree (pools : DualGraphPools) (p : DualGraphVertex → Bool) :
    NestingTree → List Path
  | .mk comp outgoing =>
      (comp.vertices.filter
          (fun f => p (faceAt pools f) && !(f == comp.outerFace))).map
        (fun f => dumpFaceOne pools outgoing f) ++
        dumpFacesEntries pools p outgoing

def dumpFacesEntries (pools : DualGraphPools) (p : DualGraphVertex → Bool) :
    List (ℕ × List NestingTree) → List Path
  | [] => []
  | (_, ts) :: rest => dumpFacesForest pools p ts ++ dumpFacesEntries pools p rest

def dumpFacesForest (pools : DualGraphPools) (p : DualGraphVertex → Bool) :
    List NestingTree → List Path
  | [] => []
  | t :: rest => dumpFacesTree pools p t ++ dumpFacesForest pools p rest

end

def dumpFaces (pools : DualGraphPools) (trees : List NestingTree)
    (p : DualGraphVertex → Bool) : List Path :=
  dumpFacesForest pools p trees

/-- `isRemovedEdge` of `walkFaces`: an edge is removed when its two
incident faces are both selected or both unselected. -/
def isRemovedEdge (pools : DualGraphPools) (faces : List ℕ) (ei : ℕ) : Bool :=
  faces.contains (halfEdgeAt pools ei).incidentVertex ==
    faces.contains (halfEdgeAt pools (halfEdgeAt pools ei).twin).incidentVertex

/-- The `edgeToNext` pairs of one face: each boundary edge maps to its
cyclic successor (the JS loop seeds `prevEdge` with the last edge). -/
def faceNextPairs (pools : DualGraphPools) (f : ℕ) : List (ℕ × ℕ) :=
  match (faceAt pools f).incidentEdges.getLast? with
  | none => []
  | some last =>
      List.zip (last :: (faceAt pools f).incidentEdges) (faceAt pools f).incidentEdges

/-- Lookup in the `edgeToNext` map; later `set`s override earlier ones. -/
def edgeToNextLookup (pairs : List (ℕ × ℕ)) (k : ℕ) : Option ℕ :=
  (pairs.reverse.find? (fun pr => pr.1 == k)).map (·.2)

/-- The inner `while (isRemovedEdge(edge)) edge = edgeToNext.get(edge.twin)`
loop of `walkFaces`, with explicit fuel. -/
def skipRemovedEdges (pools : DualGraphPools) (faces : List ℕ)
    (pairs : List (ℕ × ℕ)) : ℕ → ℕ → Option ℕ
  | 0, _ => none
  | fuel + 1, ei =>
    if isRemovedEdge pools faces ei then
      match edgeToNextLookup pairs (halfEdgeAt pools ei).twin with
      | none => none
      | some e2 => skipRemovedEdges pools faces pairs fuel e2
    else some ei

/-- The do/while walk of `walkFaces` from one start edge, with explicit
fuel; returns the emitted segments and the updated visited set. -/
def walkLoop (pools : DualGraphPools) (faces : List ℕ) (pairs : List (ℕ × ℕ))
    (startEdge : ℕ) : ℕ → ℕ → List ℕ → Path × List ℕ
  | 0, _, visited => ([], visited)
  | fuel + 1, ei, visited =>
    let out := edgeSegmentsOriented (halfEdgeAt pools ei)
    match edgeToNextLookup pairs ei with
    | none => (out, visited ++ [ei])
    | some enext =>
      match skipRemovedEdges pools faces pairs (fuel + 1) enext with
      | none => (out, visited ++ [ei])
      | some e2 =>
          if e2 == startEdge then (out, visited ++ [ei])
          else
            let r := walkLoop pools faces pairs startEdge fuel e2 (visited ++ [ei])
            (out ++ r.1, r.2)

/-- `walkFaces` from `path-boolean.ts`: walk the boundary of the union of
the selected faces, skipping removed (interior/exterior) edges.  The
source's unbounded do/while loops carry explicit fuel here; exhausted fuel
stops emitting. -/
def walkFaces (pools : DualGraphPools) (fuel : ℕ) (faces : List ℕ) : Path :=
  (List.foldl
    (fun (acc : Path × List ℕ) ei =>
      if isRemovedEdge pools faces ei || acc.2.contains ei then acc
      else
        let r := walkLoop pools faces (faces.flatMap (faceNextPairs pools)) ei fuel ei acc.2
        (acc.1 ++ r.1, r.2))
    ([], [])
    (faces.flatMap (fun f => (faceAt pools f).incidentEdges))).1

/-- `lerp(a, b, t)` from `util/math.ts` (and `vec2.lerp`): `a + (b−a)·t`. -/
def lerp (a b t : ℚ) : ℚ := a + (b - a) * t

def vlerp (a b : Vector) (t : ℚ) : Vector := (lerp a.1 b.1 t, lerp a.2 b.2 t)

/-- `splitLinearSegmentAt` from `primitives/PathSegment.ts`. -/
def splitLinearSegmentAt (a b : Vector) (t : ℚ) : PathSegment × PathSegment :=
  (.line a (vlerp a b t), .line (vlerp a b t) b)

/-- `splitCubicSegmentAt` (de Casteljau) from `primitives/PathSegment.ts`.
The source's type restricts the argument to cubics; on any other segment
kind this model returns the segment unchanged twice. -/
def splitCubicSegmentAt (seg : PathSegment) (t : ℚ) : PathSegment × PathSegment :=
  match seg with
  | .cubic p0 p1 p2 p3 =>
      (.cubic p0 (vlerp p0 p1 t) (vlerp (vlerp p0 p1 t) (vlerp p1 p2 t) t)
          (vlerp (vlerp (vlerp p0 p1 t) (vlerp p1 p2 t) t)
            (vlerp (vlerp p1 p2 t) (vlerp p2 p3 t) t) t),
        .cubic
          (vlerp (vlerp (vlerp p0 p1 t) (vlerp p1 p2 t) t)
            (vlerp (vlerp p1 p2 t) (vlerp p2 p3 t) t) t)
          (vlerp (vlerp p1 p2 t) (vlerp p2 p3 t) t) (vlerp p2 p3 t) p3)
  | other => (other, other)

/-- `splitQuadraticSegmentAt` (de Casteljau) from
`primitives/PathSegment.ts`; same convention as `splitCubicSegmentAt` for
non-quadratics. -/
def splitQuadraticSegmentAt (seg : PathSegment) (t : ℚ) : PathSegment × PathSegment :=
  match seg with
  | .quadratic p0 p1 p2 =>
      (.quadratic p0 (vlerp p0 p1 t) (vlerp (vlerp p0 p1 t) (vlerp p1 p2 t) t),
        .quadratic (vlerp (vlerp p0 p1 t) (vlerp p1 p2 t) t) (vlerp p1 p2 t) p2)
  | other => (other, other)

/-- `splitSegmentAt` from `primitives/PathSegment.ts`.  Splitting an arc
goes through the center parametrization (trigonometry), so the arc case is
a function parameter. -/
def splitSegmentAt (splitArcFn : PathSegment → ℚ → PathSegment × PathSegment)
    (seg : PathSegment) (t : ℚ) : PathSegment × PathSegment :=
  match seg with
  | .line a b => splitLinearSegmentAt a b t
  | .cubic p0 c1 c2 p1 => splitCubicSegmentAt (.cubic p0 c1 c2 p1) t
  | .quadratic p0 c p1 => splitQuadraticSegmentAt (.quadratic p0 c p1) t
  | .arc p0 rx ry phi la sw p1 => splitArcFn (.arc p0 rx ry phi la sw p1) t

/-- `segmentToEdge(parent)` from `path-boolean.ts`. -/
def segmentToEdge (parent : ℕ) (seg : PathSegment) : MajorGraphEdgeStage1 :=
  ⟨seg, parent⟩

/-- The growing-array loop of `splitAtSelfIntersections` from
`path-boolean.ts`, as a queue with explicit fuel (`selfInt` abstracts the
irrational `pathCubicSegmentSelfIntersection` kernel).  `acc` holds the
processed prefix of the array; pushed fragments join the back of the
queue, exactly as `edges.push` appends behind the loop index.  Exhausted
fuel leaves the remaining queue untouched. -/
def splitAtSelfIntersectionsGo (selfInt : PathSegment → Option (ℚ × ℚ)) :
    ℕ → List MajorGraphEdgeStage1 → List MajorGraphEdgeStage1 →
      List MajorGraphEdgeStage1
  | 0, queue, acc => acc ++ queue
  | _ + 1, [], acc => acc
  | fuel + 1, edge :: rest, acc =>
    match edge.seg with
    | .cubic p0 c1 c2 p1 =>
      match selfInt (.cubic p0 c1 c2 p1) with
      | none => splitAtSelfIntersectionsGo selfInt fuel rest (acc ++ [edge])
      | some ts =>
        if rabs ((if ts.2 < ts.1 then ts.2 else ts.1) -
            (if ts.2 < ts.1 then ts.1 else ts.2)) < EPS.param then
          splitAtSelfIntersectionsGo selfInt fuel
            (rest ++
              [⟨(splitCubicSegmentAt (.cubic p0 c1 c2 p1)
                  (if ts.2 < ts.1 then ts.2 else ts.1)).2, edge.parent⟩])
            (acc ++
              [⟨(splitCubicSegmentAt (.cubic p0 c1 c2 p1)
                  (if ts.2 < ts.1 then ts.2 else ts.1)).1, edge.parent⟩])
        else
          splitAtSelfIntersectionsGo selfInt fuel
            (rest ++
              [⟨(splitCubicSegmentAt
                  ((splitCubicSegmentAt (.cubic p0 c1 c2 p1)
                    (if ts.2 < ts.1 then ts.2 else ts.1)).2)
                  (((if ts.2 < ts.1 then ts.1 else ts.2) -
                      (if ts.2 < ts.1 then ts.2 else ts.1)) /
                    (1 - (if ts.2 < ts.1 then ts.2 else ts.1)))).1, edge.parent⟩,
                ⟨(splitCubicSegmentAt
                  ((splitCubicSegmentAt (.cubic p0 c1 c2 p1)
                    (if ts.2 < ts.1 then ts.2 else ts.1)).2)
                  (((if ts.2 < ts.1 then ts.1 else ts.2) -
                      (if ts.2 < ts.1 then ts.2 else ts.1)) /
                    (1 - (if ts.2 < ts.1 then ts.2 else ts.1)))).2, edge.parent⟩])
            (acc ++
              [⟨(splitCubicSegmentAt (.cubic p0 c1 c2 p1)
                  (if ts.2 < ts.1 then ts.2 else ts.1)).1, edge.parent⟩])
    | _ => splitAtSelfIntersectionsGo selfInt fuel rest (acc ++ [edge])

/-- `splitAtSelfIntersections` from `path-boolean.ts` (the in-place array
mutation becomes the returned list). -/
def splitAtSelfIntersections (selfInt : PathSegment → Option (ℚ × ℚ)) (fuel : ℕ)
    (edges : List MajorGraphEdgeStage1) : List MajorGraphEdgeStage1 :=
  splitAtSelfIntersectionsGo selfInt fuel edges []

instance : Inhabited MajorGraphEdgeStage1 := ⟨⟨.line (0, 0) (0, 0), 0⟩⟩

/-- The `includeEndpoints` test of `splitAtIntersections` (marked
"not correct" in the source; modeled as-is). -/
def includeEndpointsTest (edge candidate : MajorGraphEdgeStage1) : Bool :=
  !(edge.parent == candidate.parent) ||
    !(vectorsEqual (getEndPoint candidate.seg) (getStartPoint edge.seg) EPS.point ||
      vectorsEqual (getStartPoint candidate.seg) (getEndPoint edge.seg) EPS.point)

/-- `splitsPerEdge[i].push(t)` (`addSplit`) from `splitAtIntersections`. -/
def addSplit (m : List (ℕ × List ℚ)) (i : ℕ) (t : ℚ) : List (ℕ × List ℚ) :=
  match m with
  | [] => [(i, [t])]
  | e :: rest => if e.1 == i then (e.1, e.2 ++ [t]) :: rest else e :: addSplit rest i t

def lookupSplits (m : List (ℕ × List ℚ)) (i : ℕ) : Option (List ℚ) :=
  (m.find? (fun e => e.1 == i)).map (·.2)

/-- Ascending insertion sort of the split parameters (`splits.sort()`). -/
def insertSorted (t : ℚ) : List ℚ → List ℚ
  | [] => [t]
  | x :: rest => if t ≤ x then t :: x :: rest else x :: insertSorted t rest

def sortSplits : List ℚ → List ℚ
  | [] => []
  | t :: rest => insertSorted t (sortSplits rest)

/-- The split-application loop of `splitAtIntersections`: walk the sorted
parameters, remapping each global `t` to the residual parameter
`(t − prevT)/(1 − prevT)`; skip splits within `EPS.param` of 0 or 1 and
stop at the first parameter above `1 − EPS.param`. -/
def applySplitsGo (bboxFn : PathSegment → AABB)
    (splitArcFn : PathSegment → ℚ → PathSegment × PathSegment) (parent : ℕ) :
    PathSegment → ℚ → List ℚ → List MajorGraphEdgeStage2
  | tmpSeg, _, [] => [⟨tmpSeg, parent, bboxFn tmpSeg⟩]
  | tmpSeg, prevT, t :: rest =>
    if t > 1 - EPS.param then [⟨tmpSeg, parent, bboxFn tmpSeg⟩]
    else if (t - prevT) / (1 - prevT) < EPS.param then
      applySplitsGo bboxFn splitArcFn parent tmpSeg t rest
    else if (t - prevT) / (1 - prevT) > 1 - EPS.param then
      applySplitsGo bboxFn splitArcFn parent tmpSeg t rest
    else
      ⟨(splitSegmentAt splitArcFn tmpSeg ((t - prevT) / (1 - prevT))).1, parent,
          bboxFn (splitSegmentAt splitArcFn tmpSeg ((t - prevT) / (1 - prevT))).1⟩ ::
        applySplitsGo bboxFn splitArcFn parent
          (splitSegmentAt splitArcFn tmpSeg ((t - prevT) / (1 - prevT))).2 t rest

/-- The quadtree pass of `splitAtIntersections`: for each edge in order,
query the candidates already inserted, record both split parameters of
every reported intersection, then insert the edge (so each unordered pair
is tested once).  `intersectFn` abstracts `pathSegmentIntersection` (the
bounding-volume bisection over irrational boxes). -/
def collectSplits (intersectFn : PathSegment → PathSegment → Bool → List (ℚ × ℚ))
    (edges : List MajorGraphEdgeStage1) (withBoundingBox : List MajorGraphEdgeStage2)
    (tree0 : QuadTree ℕ) : List (ℕ × List ℚ) :=
  (withBoundingBox.enum.foldl
    (fun (st : QuadTree ℕ × List (ℕ × List ℚ)) ie =>
      let candidates := st.1.find ie.2.boundingBox []
      let splits :=
        candidates.foldl
          (fun (m : List (ℕ × List ℚ)) j =>
            (intersectFn ie.2.seg (edges.getD j default).seg
                (includeEndpointsTest ⟨ie.2.seg, ie.2.parent⟩ (edges.getD j default))).foldl
              (fun m tt => addSplit (addSplit m ie.1 tt.1) j tt.2) m)
          st.2
      (st.1.insert ie.2.boundingBox ie.1, splits))
    (tree0, [])).2

/-- `splitAtIntersections` from `path-boolean.ts`: tag edges with their
bounding boxes, merge the overall box (null exactly when there are no
edges), then split every edge at the intersection parameters found through
the quadtree. -/
def splitAtIntersections (bboxFn : PathSegment → AABB)
    (intersectFn : PathSegment → PathSegment → Bool → List (ℚ × ℚ))
    (splitArcFn : PathSegment → ℚ → PathSegment × PathSegment)
    (edges : List MajorGraphEdgeStage1) :
    List MajorGraphEdgeStage2 × Option AABB :=
  match (edges.map (fun e => (⟨e.seg, e.parent, bboxFn e.seg⟩ : MajorGraphEdgeStage2))).foldl
      (fun (acc : Option AABB) e => some (mergeBoundingBoxes acc e.boundingBox)) none with
  | none => ([], none)
  | some totalBoundingBox =>
    let withBoundingBox :=
      edges.map (fun e => (⟨e.seg, e.parent, bboxFn e.seg⟩ : MajorGraphEdgeStage2))
    let splitsPerEdge :=
      collectSplits intersectFn edges withBoundingBox
        (intersectionEdgeTree totalBoundingBox)
    (withBoundingBox.enum.flatMap
      (fun ie =>
        match lookupSplits splitsPerEdge ie.1 with
        | none => [ie.2]
        | some splits =>
            applySplitsGo bboxFn splitArcFn ie.2.parent ie.2.seg 0 (sortSplits splits)),
      some totalBoundingBox)

/-- `pathBoolean` from `path-boolean.ts`.  The purely geometric middle
stages (`computeMinor`, `removeDanglingEdges`, `sortOutgoingEdgesByAngle`,
`computeDual`, `computeNestingTree`, `flagFaces`) consume trigonometric
kernels and are abstracted as the `arrange` parameter producing the
flagged nesting forest; every theorem about `pathBoolean` below is
universally quantified over `arrange` and the other kernel parameters, so
it holds for the real stages in particular. -/
def pathBoolean (selfInt : PathSegment → Option (ℚ × ℚ)) (selfFuel : ℕ)
    (bboxFn : PathSegment → AABB)
    (intersectFn : PathSegment → PathSegment → Bool → List (ℚ × ℚ))
    (splitArcFn : PathSegment → ℚ → PathSegment × PathSegment)
    (arrange : MajorGraph → FillRule → FillRule → DualGraphPools × List NestingTree)
    (walkFuel : ℕ) (a : Path) (aFillRule : FillRule) (b : Path)
    (bFillRule : FillRule) (op : PathBooleanOperation) : List Path :=
  match splitAtIntersections bboxFn intersectFn splitArcFn
      (splitAtSelfIntersections selfInt selfFuel
        (a.map (segmentToEdge 1) ++ b.map (segmentToEdge 2))) with
  | (_, none) => []
  | (splitEdges, some totalBoundingBox) =>
    match arrange (findVertices splitEdges totalBoundingBox) aFillRule bFillRule with
    | (pools, nestingTrees) =>
      match op with
      | .Division => dumpFaces pools nestingTrees (operationPredicates op)
      | .Fracture => dumpFaces pools nestingTrees (operationPredicates op)
      | _ =>
          [walkFaces pools walkFuel
            (getSelectedFaces pools nestingTrees (operationPredicates op))]

mutual

theorem selectedFacesTree_eq_filter (pools : DualGraphPools) (p : DualGraphVertex → Bool) :
    ∀ t : NestingTree,
      selectedFacesTree pools p t = (allFacesTree t).filter (fun f => p (faceAt pools f))
  | .mk comp outgoing => by
      simp only [selectedFacesTree, allFacesTree, List.filter_append]
      rw [selectedFacesEntries_eq_filter pools p outgoing]

theorem selectedFacesEntries_eq_filter (pools : DualGraphPools) (p : DualGraphVertex → Bool) :
    ∀ entries : List (ℕ × List NestingTree),
      selectedFacesEntries pools p entries =
        (allFacesEntries entries).filter (fun f => p (faceAt pools f))
  | [] => by simp [selectedFacesEntries, allFacesEntries]
  | (f, ts) :: rest => by
      simp only [selectedFacesEntries, allFacesEntries, List.filter_append]
      rw [selectedFacesForest_eq_filter pools p ts,
        selectedFacesEntries_eq_filter pools p rest]

theorem selectedFacesForest_eq_filter (pools : DualGraphPools) (p : DualGraphVertex → Bool) :
    ∀ trees : List NestingTree,
      selectedFacesForest pools p trees =
        (allFacesForest trees).filter (fun f => p (faceAt pools f))
  | [] => by simp [selectedFacesForest, allFacesForest]
  | t :: rest => by
      simp only [selectedFacesForest, allFacesForest, List.filter_append]
      rw [selectedFacesTree_eq_filter pools p t,
        selectedFacesForest_eq_filter pools p rest]

end

/-- C1: a face is selected by the face-selection stage of `pathBoolean`
exactly when it occurs in the nesting forest and its two-bit flag
satisfies the operation's predicate, and the predicates are exactly:
Union `flag > 0`, Difference `flag == 1`, Intersection `flag == 3`,
Exclusion `flag ∈ {1, 2}`, Division `(flag & 1) == 1`, Fracture
`flag > 0`. -/
theorem getSelectedFaces_spec (op : PathBooleanOperation) (pools : DualGraphPools)
    (trees : List NestingTree) (f : ℕ) :
    (f ∈ getSelectedFaces pools trees (operationPredicates op) ↔
      f ∈ allFacesForest trees ∧ operationPredicates op (faceAt pools f) = true) ∧
    (∀ face : DualGraphVertex,
      (operationPredicates .Union face = decide (face.flag > 0)) ∧
      (operationPredicates .Difference face = decide (face.flag = 1)) ∧
      (operationPredicates .Intersection face = decide (face.flag = 3)) ∧
      (operationPredicates .Exclusion face = decide (face.flag = 1 ∨ face.flag = 2)) ∧
      (operationPredicates .Division face = decide (face.flag &&& 1 = 1)) ∧
      (operationPredicates .Fracture face = decide (face.flag > 0))) := by
  constructor
  · rw [getSelectedFaces, selectedFacesForest_eq_filter]
    simp [List.mem_filter]
  · intro face
    refine ⟨rfl, ?_, ?_, ?_, ?_, rfl⟩
    · by_cases h : face.flag = 1 <;> simp [operationPredicates, h]
    · by_cases h : face.flag = 3 <;> simp [operationPredicates, h]
    · by_cases h1 : face.flag = 1 <;> by_cases h2 : face.flag = 2 <;>
        simp [operationPredicates, h1, h2]
    · by_cases h : face.flag % 2 = 1 <;> simp [operationPredicates, Nat.and_one_is_mod, h]

theorem splitAtSelfIntersectionsGo_ne_nil (selfInt : PathSegment → Option (ℚ × ℚ)) :
    ∀ (fuel : ℕ) (queue acc : List MajorGraphEdgeStage1),
      (queue ≠ [] ∨ acc ≠ []) → splitAtSelfIntersectionsGo selfInt fuel queue acc ≠ [] := by
  intro fuel
  induction fuel with
  | zero =>
    intro queue acc h
    simp only [splitAtSelfIntersectionsGo]
    rcases h with h | h <;> simp [h]
  | succ n ih =>
    intro queue acc h
    cases queue with
    | nil =>
      rcases h with h | h
      · exact absurd rfl h
      · simpa [splitAtSelfIntersectionsGo] using h
    | cons edge rest =>
      obtain ⟨seg, parent⟩ := edge
      cases seg
      case cubic p0 c1 c2 p1 =>
        simp only [splitAtSelfIntersectionsGo]
        rcases hsi : selfInt (.cubic p0 c1 c2 p1) with _ | ts <;> simp only [hsi]
        · exact ih _ _ (Or.inr (by simp))
        · split_ifs <;> exact ih _ _ (Or.inr (by simp))
      all_goals
        simp only [splitAtSelfIntersectionsGo]
      all_goals
        exact ih _ _ (Or.inr (by simp))

theorem splitAtSelfIntersections_eq_nil_iff (selfInt : PathSegment → Option (ℚ × ℚ))
    (fuel : ℕ) (edges : List MajorGraphEdgeStage1) :
    splitAtSelfIntersections selfInt fuel edges = [] ↔ edges = [] := by
  constructor
  · intro h
    by_contra hne
    exact splitAtSelfIntersectionsGo_ne_nil selfInt fuel edges [] (Or.inl hne) h
  · intro h
    subst h
    cases fuel <;> rfl

theorem foldl_merge_some_ne_none (l : List MajorGraphEdgeStage2) :
    ∀ x : AABB,
      l.foldl (fun (acc : Option AABB) e => some (mergeBoundingBoxes acc e.boundingBox))
        (some x) ≠ none := by
  induction l with
  | nil => intro x h; exact Option.noConfusion h
  | cons e rest ih => intro x; exact ih _

theorem totalBoundingBox_none_iff (l : List MajorGraphEdgeStage2) :
    l.foldl (fun (acc : Option AABB) e => some (mergeBoundingBoxes acc e.boundingBox))
        none = none ↔ l = [] := by
  cases l with
  | nil => simp
  | cons e rest =>
    simp only [List.foldl_cons]
    exact ⟨fun h => absurd h (foldl_merge_some_ne_none rest _), fun h => List.noConfusion h⟩

theorem splitAtIntersections_snd_none_iff (bboxFn : PathSegment → AABB)
    (intersectFn : PathSegment → PathSegment → Bool → List (ℚ × ℚ))
    (splitArcFn : PathSegment → ℚ → PathSegment × PathSegment)
    (edges : List MajorGraphEdgeStage1) :
    (splitAtIntersections bboxFn intersectFn splitArcFn edges).2 = none ↔ edges = [] := by
  unfold splitAtIntersections
  split
  · rename_i heq
    rw [totalBoundingBox_none_iff] at heq
    simp only [List.map_eq_nil_iff] at heq
    simp [heq]
  · rename_i bb heq
    constructor
    · intro h
      exact absurd h (by simp)
    · intro h
      subst h
      simp at heq

/-- C3: `pathBoolean` returns the empty list when both input paths are
empty, and the overall bounding box computed by the splitting stage is
null exactly when both inputs are empty (in which case the caller returns
no paths).  Universally quantified over the abstracted geometric
kernels. -/
theorem pathBoolean_empty_geometry :
    (∀ (selfInt : PathSegment → Option (ℚ × ℚ)) (selfFuel : ℕ)
      (bboxFn : PathSegment → AABB)
      (intersectFn : PathSegment → PathSegment → Bool → List (ℚ × ℚ))
      (splitArcFn : PathSegment → ℚ → PathSegment × PathSegment)
      (arrange : MajorGraph → FillRule → FillRule → DualGraphPools × List NestingTree)
      (walkFuel : ℕ) (aFillRule bFillRule : FillRule) (op : PathBooleanOperation),
      pathBoolean selfInt selfFuel bboxFn intersectFn splitArcFn arrange walkFuel
        [] aFillRule [] bFillRule op = []) ∧
    (∀ (selfInt : PathSegment → Option (ℚ × ℚ)) (selfFuel : ℕ)
      (bboxFn : PathSegment → AABB)
      (intersectFn : PathSegment → PathSegment → Bool → List (ℚ × ℚ))
      (splitArcFn : PathSegment → ℚ → PathSegment × PathSegment) (a b : Path),
      ((splitAtIntersections bboxFn intersectFn splitArcFn
          (splitAtSelfIntersections selfInt selfFuel
            (a.map (segmentToEdge 1) ++ b.map (segmentToEdge 2)))).2 = none ↔
        (a = [] ∧ b = []))) := by
  constructor
  · intro selfInt selfFuel bboxFn intersectFn splitArcFn arrange walkFuel afr bfr op
    have h1 : splitAtSelfIntersections selfInt selfFuel
        (List.map (segmentToEdge 1) [] ++ List.map (segmentToEdge 2) []) = [] := by
      cases selfFuel <;> rfl
    unfold pathBoolean
    rw [h1]
    rfl
  · intro selfInt selfFuel bboxFn intersectFn splitArcFn a b
    rw [splitAtIntersections_snd_none_iff, splitAtSelfIntersections_eq_nil_iff]
    simp

/-- C2: for inputs that are not both empty, `pathBoolean` with
Union/Difference/Intersection/Exclusion returns a list containing exactly
one `Path` (the single boundary walk; it may itself be empty or hold
several loops).  Universally quantified over the abstracted geometric
kernels. -/
theorem pathBoolean_four_ops_single_path (selfInt : PathSegment → Option (ℚ × ℚ))
    (selfFuel : ℕ) (bboxFn : PathSegment → AABB)
    (intersectFn : PathSegment → PathSegment → Bool → List (ℚ × ℚ))
    (splitArcFn : PathSegment → ℚ → PathSegment × PathSegment)
    (arrange : MajorGraph → FillRule → FillRule → DualGraphPools × List NestingTree)
    (walkFuel : ℕ) (a : Path) (aFillRule : FillRule) (b : Path)
    (bFillRule : FillRule) (op : PathBooleanOperation)
    (hne : ¬(a = [] ∧ b = []))
    (hop : op = .Union ∨ op = .Difference ∨ op = .Intersection ∨ op = .Exclusion) :
    (pathBoolean selfInt selfFuel bboxFn intersectFn splitArcFn arrange walkFuel
      a aFillRule b bFillRule op).length = 1 := by
  rcases h : splitAtIntersections bboxFn intersectFn splitArcFn
      (splitAtSelfIntersections selfInt selfFuel
        (a.map (segmentToEdge 1) ++ b.map (segmentToEdge 2))) with ⟨se, obb⟩
  cases obb with
  | none =>
    have h2 : (splitAtIntersections bboxFn intersectFn splitArcFn
        (splitAtSelfIntersections selfInt selfFuel
          (a.map (segmentToEdge 1) ++ b.map (segmentToEdge 2)))).2 = none := by
      rw [h]
    rw [splitAtIntersections_snd_none_iff, splitAtSelfIntersections_eq_nil_iff] at h2
    simp at h2
    exact absurd h2 hne
  | some bb =>
    unfold pathBoolean
    rw [h]
    rcases harr : arrange (findVertices se bb) aFillRule bFillRule with ⟨pools, trees⟩
    rcases hop with rfl | rfl | rfl | rfl <;> rfl

/-- Witness for C2: a one-segment first input, an empty second input and
the Union operation, with trivially instantiated kernel parameters. -/
theorem pathBoolean_four_ops_single_path_witness :
    (pathBoolean (fun _ => none) 1 (fun _ => ⟨0, 0, 0, 0⟩) (fun _ _ _ => [])
        (fun s _ => (s, s)) (fun _ _ _ => (⟨[], []⟩, [])) 0
        [.line (0, 0) (1, 1)] .NonZero [] .NonZero .Union).length = 1 :=
  pathBoolean_four_ops_single_path (fun _ => none) 1 (fun _ => ⟨0, 0, 0, 0⟩)
    (fun _ _ _ => []) (fun s _ => (s, s)) (fun _ _ _ => (⟨[], []⟩, [])) 0
    [.line (0, 0) (1, 1)] .NonZero [] .NonZero .Union (by simp) (Or.inl rfl)

/-- C10: `reversePathSegment` is an involution on every segment kind, and a
single application swaps the segment's start and end points. -/
theorem reversePathSegment_involutive_and_swaps (seg : PathSegment) :
    reversePathSegment (reversePathSegment seg) = seg ∧
    getStartPoint (reversePathSegment seg) = getEndPoint seg ∧
    getEndPoint (reversePathSegment seg) = getStartPoint seg := by
  cases seg <;>
    simp [reversePathSegment, getStartPoint, getEndPoint]

end PathBool
